import Mathlib

/-!
# Verification of the odds-harvester normalization-and-merge engine

Shallow embedding of the two pipeline scripts:

* `scripts/fetch_odds.py` — the fetch-side normalizer
  (`parse_date`, `transform_to_watchyscore_format`);
* `scripts/merge_odds.py` — the record normalizer `parse_match`,
  the day-offset computation `get_day_offset`, and the pure merge core of
  `main()` (everything between loading the inputs and serializing the
  output), here called `mergeOdds`.

Modelling conventions:

* Python strings are Lean `String`s; all character-level processing is done
  on `String.data` (`List Char`) with ASCII case folding, since every string
  the scripts manipulate is ASCII.
* Python dicts with known probed keys become structures whose fields are
  `Option`-valued: `none` models "key absent or NaN/None-valued".
* Prices (Python floats) are modelled as `ℚ`; `round(x, 2)` is modelled as
  exact half-even rounding at 2 decimals (`round2`).  The binary-float
  representation error of Python floats is outside the model.
* `datetime.strptime` / `strftime` are modelled faithfully for the four
  format strings the scripts use, including CPython's regex-level digit
  rules (`%y` exactly 2 digits mapped 69-99→19xx / 00-68→20xx, `%Y` exactly
  4 digits, `%d`/`%m`/`%H`/`%M` one or two digits with the documented
  ranges) and calendar validation.
* Wall-clock values (`meta.updated_at` / `last_updated`) are impure and are
  excluded from the embedded output records; "equal in content
  (mod `meta.updated_at`)" therefore becomes plain equality.
-/

namespace OddsHarvester

/-! ## Character-level string utilities (ASCII) -/

/-- ASCII lower-casing of one character, as `str.lower()` acts on the
ASCII strings these scripts handle. -/
def lowChar (c : Char) : Char :=
  if 65 ≤ c.toNat ∧ c.toNat ≤ 90 then Char.ofNat (c.toNat + 32) else c

/-- `str.lower()` on the character list of a string. -/
def lowStr (l : List Char) : List Char := l.map lowChar

/-- Is `c` an ASCII digit? -/
def isDig (c : Char) : Bool := 48 ≤ c.toNat && c.toNat ≤ 57

/-- Numeric value of an ASCII digit. -/
def digVal (c : Char) : Nat := c.toNat - 48

/-- Does the list start with the given pattern?  (`str.startswith`). -/
def startsWith : List Char → List Char → Bool
  | _, [] => true
  | [], _ :: _ => false
  | c :: l, d :: s => c == d && startsWith l s

/-- Substring test: Python's `needle in haystack` on strings. -/
def hasSub : List Char → List Char → Bool
  | [], s => s.isEmpty
  | c :: l, s => startsWith (c :: l) s || hasSub l s

/-! ## Python `round(x, 2)` on exact rationals -/

/-- Half-even ("banker's") rounding of `q` to 2 decimal places, the exact
counterpart of Python's `round(x, 2)`.  Implemented on `num`/`den` with
integer operations only. -/
def round2 (q : ℚ) : ℚ :=
  let n : ℤ := q.num * 100
  let d : ℤ := (q.den : ℤ)
  let f : ℤ := n.fdiv d
  let r : ℤ := n - f * d
  let k : ℤ :=
    if 2 * r < d then f
    else if 2 * r > d then f + 1
    else if f % 2 = 0 then f else f + 1
  mkRat k 100

/-! ## Proleptic Gregorian calendar arithmetic

`datetime` subtraction and `timedelta` addition work on calendar days; we
use the standard civil-from-days / days-from-civil algorithms (epoch
1970-01-01). -/

/-- Gregorian leap-year rule. -/
def isLeap (y : ℕ) : Bool := y % 4 == 0 && (y % 100 != 0 || y % 400 == 0)

/-- Number of days in a month (`m` is 1-based). -/
def daysInMonth (y m : ℕ) : ℕ :=
  if m = 2 then (if isLeap y then 29 else 28)
  else if m = 4 ∨ m = 6 ∨ m = 9 ∨ m = 11 then 30
  else 31

/-- Days since 1970-01-01 of a civil date (proleptic Gregorian). -/
def daysFromCivil (y m d : ℤ) : ℤ :=
  let y' := y - (if m ≤ 2 then 1 else 0)
  let era := y'.fdiv 400
  let yoe := y' - era * 400
  let doy := (153 * (m + (if m > 2 then -3 else 9)) + 2).fdiv 5 + d - 1
  let doe := yoe * 365 + yoe.fdiv 4 - yoe.fdiv 100 + doy
  era * 146097 + doe - 719468

/-- Civil date `(y, m, d)` of a day count since 1970-01-01. -/
def civilFromDays (z : ℤ) : ℤ × ℤ × ℤ :=
  let z' := z + 719468
  let era := z'.fdiv 146097
  let doe := z' - era * 146097
  let yoe := (doe - doe.fdiv 1460 + doe.fdiv 36524 - doe.fdiv 146096).fdiv 365
  let y := yoe + era * 400
  let doy := doe - (365 * yoe + yoe.fdiv 4 - yoe.fdiv 100)
  let mp := (5 * doy + 2).fdiv 153
  let d := doy - (153 * mp + 2).fdiv 5 + 1
  let m := mp + (if mp < 10 then 3 else -9)
  (y + (if m ≤ 2 then 1 else 0), m, d)

/-- Day count of a civil date given as naturals. -/
def civDays (y m d : ℕ) : ℤ := daysFromCivil (y : ℤ) (m : ℤ) (d : ℤ)

/-- `strftime('%A')`: English weekday name of a day count
(1970-01-01 was a Thursday). -/
def dayName (z : ℤ) : String :=
  (["Monday", "Tuesday", "Wednesday", "Thursday", "Friday", "Saturday",
    "Sunday"].getD ((z + 3).fmod 7).toNat "")

/-! ## `strptime`-style parsing

Each primitive consumes a prefix of a character list and returns the parsed
value with the rest, mirroring CPython's `_strptime` regex fragments. -/

/-- `%d`: day of month, `3[01]|[12]\d|0[1-9]|[1-9]`. -/
def pDay : List Char → Option (ℕ × List Char)
  | [] => none
  | c :: rest =>
    match rest with
    | c' :: rest' =>
      if isDig c && isDig c' &&
          decide (1 ≤ 10 * digVal c + digVal c' ∧ 10 * digVal c + digVal c' ≤ 31) then
        some (10 * digVal c + digVal c', rest')
      else if isDig c && decide (1 ≤ digVal c) then some (digVal c, rest)
      else none
    | [] => if isDig c && decide (1 ≤ digVal c) then some (digVal c, []) else none

/-- `%m`: month, `1[0-2]|0[1-9]|[1-9]`. -/
def pMonth : List Char → Option (ℕ × List Char)
  | [] => none
  | c :: rest =>
    match rest with
    | c' :: rest' =>
      if isDig c && isDig c' &&
          decide (1 ≤ 10 * digVal c + digVal c' ∧ 10 * digVal c + digVal c' ≤ 12) then
        some (10 * digVal c + digVal c', rest')
      else if isDig c && decide (1 ≤ digVal c) then some (digVal c, rest)
      else none
    | [] => if isDig c && decide (1 ≤ digVal c) then some (digVal c, []) else none

/-- `%y`: two-digit year, `\d\d`, mapped 0-68 → 2000-2068, 69-99 → 1969-1999. -/
def pYear2 : List Char → Option (ℕ × List Char)
  | c :: c' :: rest =>
    if isDig c && isDig c' then
      let v := 10 * digVal c + digVal c'
      some (if v ≤ 68 then 2000 + v else 1900 + v, rest)
    else none
  | _ => none

/-- `%Y`: four-digit year, `\d\d\d\d`. -/
def pYear4 : List Char → Option (ℕ × List Char)
  | a :: b :: c :: d :: rest =>
    if isDig a && isDig b && isDig c && isDig d then
      some (1000 * digVal a + 100 * digVal b + 10 * digVal c + digVal d, rest)
    else none
  | _ => none

/-- `%H`: hour, `2[0-3]|[0-1]\d|\d`. -/
def pHour : List Char → Option (ℕ × List Char)
  | [] => none
  | c :: rest =>
    match rest with
    | c' :: rest' =>
      if isDig c && isDig c' && decide (10 * digVal c + digVal c' ≤ 23) then
        some (10 * digVal c + digVal c', rest')
      else if isDig c then some (digVal c, rest)
      else none
    | [] => if isDig c then some (digVal c, []) else none

/-- `%M`: minute, `[0-5]\d|\d`. -/
def pMinute : List Char → Option (ℕ × List Char)
  | [] => none
  | c :: rest =>
    match rest with
    | c' :: rest' =>
      if isDig c && isDig c' && decide (10 * digVal c + digVal c' ≤ 59) then
        some (10 * digVal c + digVal c', rest')
      else if isDig c then some (digVal c, rest)
      else none
    | [] => if isDig c then some (digVal c, []) else none

/-- A literal character in the format string. -/
def pLit (ch : Char) : List Char → Option (List Char)
  | c :: rest => if c == ch then some rest else none
  | [] => none

/-- A parsed date-time. -/
structure DT where
  y : ℕ
  mo : ℕ
  d : ℕ
  hh : ℕ
  mi : ℕ
deriving DecidableEq

/-- `datetime`'s validity condition for the values our two formats can
produce: year in `MINYEAR..MAXYEAR` and day within the month (month, hour
and minute ranges are already enforced by the regex fragments). -/
def validDT (t : DT) : Prop :=
  1 ≤ t.y ∧ t.y ≤ 9999 ∧ 1 ≤ t.mo ∧ t.mo ≤ 12 ∧ 1 ≤ t.d ∧ t.d ≤ daysInMonth t.y t.mo ∧
    t.hh ≤ 23 ∧ t.mi ≤ 59

instance : DecidablePred validDT := fun t => by unfold validDT; infer_instance

/-- The regex-matching part of `strptime(s, '%d/%m/%y')` / `'%d/%m/%Y'`,
optionally followed by `' %H:%M'`; requires the whole string to be
consumed. -/
def strpDMYraw (cs : List Char) (two : Bool) (withTime : Bool) : Option DT := do
  let (d, r1) ← pDay cs
  let r2 ← pLit '/' r1
  let (m, r3) ← pMonth r2
  let r4 ← pLit '/' r3
  let (y, r5) ← if two then pYear2 r4 else pYear4 r4
  if withTime then do
    let r6 ← pLit ' ' r5
    let (hh, r7) ← pHour r6
    let r8 ← pLit ':' r7
    let (mi, r9) ← pMinute r8
    if r9.isEmpty then some (DT.mk y m d hh mi) else none
  else if r5.isEmpty then some (DT.mk y m d 0 0) else none

/-- `datetime.strptime(s, '%d/%m/%y')` / `'%d/%m/%Y'` (with optional
`' %H:%M'`): the regex match followed by `datetime`'s calendar
validation. -/
def strpDMY (cs : List Char) (two : Bool) (withTime : Bool) : Option DT :=
  (strpDMYraw cs two withTime).bind (fun t => if validDT t then some t else none)

/-- `datetime.strptime(s, '%Y-%m-%d')`, whole-string, calendar-validated. -/
def strpYmd (cs : List Char) : Option (ℕ × ℕ × ℕ) := do
  let (y, r1) ← pYear4 cs
  let r2 ← pLit '-' r1
  let (m, r3) ← pMonth r2
  let r4 ← pLit '-' r3
  let (d, r5) ← pDay r4
  if r5.isEmpty ∧ 1 ≤ y ∧ d ≤ daysInMonth y m then some (y, m, d) else none

/-! ## `strftime`-style rendering -/

/-- The ASCII digit character for `n < 10`. -/
def digitChar (n : ℕ) : Char := Char.ofNat (48 + n)

/-- Two-digit zero-padded rendering. -/
def pad2 (n : ℕ) : List Char := [digitChar (n / 10 % 10), digitChar (n % 10)]

/-- Four-digit zero-padded rendering. -/
def pad4 (n : ℕ) : List Char :=
  [digitChar (n / 1000 % 10), digitChar (n / 100 % 10), digitChar (n / 10 % 10),
    digitChar (n % 10)]

/-- `dt.strftime('%Y-%m-%dT%H:%M:%SZ')` (seconds are always `00` here,
since neither input format carries seconds). -/
def renderISO (t : DT) : String :=
  ⟨pad4 t.y ++ '-' :: pad2 t.mo ++ '-' :: pad2 t.d ++ 'T' :: pad2 t.hh ++
    ':' :: pad2 t.mi ++ ':' :: '0' :: '0' :: ['Z']⟩

/-- `date.strftime('%Y-%m-%d')` from a day count. -/
def renderYmdOfDays (z : ℤ) : String :=
  let c := civilFromDays z
  ⟨pad4 c.1.toNat ++ '-' :: pad2 c.2.1.toNat ++ '-' :: pad2 c.2.2.toNat⟩

/-! ## `scripts/fetch_odds.py` -/

/-- One row of the fixtures CSV, restricted to the columns
`transform_to_watchyscore_format` probes.  `none` models an absent column
or a NaN cell (`pd.notna` fails either way).  `Pover25`/`Punder25` etc.
stand for the columns `P>2.5`/`P<2.5`, `B365>2.5`/`B365<2.5`,
`Avg>2.5`/`Avg<2.5`. -/
structure FRow where
  HomeTeam : Option String := none
  AwayTeam : Option String := none
  Date : Option String := none
  Time : Option String := none
  Div : Option String := none
  PSH : Option ℚ := none
  PSD : Option ℚ := none
  PSA : Option ℚ := none
  PH : Option ℚ := none
  PD : Option ℚ := none
  PA : Option ℚ := none
  B365H : Option ℚ := none
  B365D : Option ℚ := none
  B365A : Option ℚ := none
  AvgH : Option ℚ := none
  AvgD : Option ℚ := none
  AvgA : Option ℚ := none
  Pover25 : Option ℚ := none
  Punder25 : Option ℚ := none
  B365over25 : Option ℚ := none
  B365under25 : Option ℚ := none
  Avgover25 : Option ℚ := none
  Avgunder25 : Option ℚ := none
deriving DecidableEq

/-- `parse_date(date_str, time_str)` from `fetch_odds.py`: dispatch on
`len(date_str) <= 8` between `%d/%m/%y` and `%d/%m/%Y`, optionally append
`' %H:%M'` when `time_str` is truthy, and render the result as ISO-8601
UTC; `None` on any parse failure. -/
def parse_date (date_str : String) (time_str : Option String) : Option String :=
  let two := date_str.length ≤ 8
  let dt := match time_str with
    | some t => if t = "" then strpDMY date_str.data two false
                else strpDMY (date_str.data ++ ' ' :: t.data) two true
    | none => strpDMY date_str.data two false
  dt.map renderISO

/-- The league-code lookup table, with `league_map.get(div, div)`
fallthrough. -/
def leagueName (div : String) : String :=
  match div with
  | "E0" => "ENG Premier League"
  | "E1" => "ENG Championship"
  | "E2" => "ENG League 1"
  | "E3" => "ENG League 2"
  | "EC" => "ENG Conference"
  | "SC0" => "SCO Premiership"
  | "SC1" => "SCO Championship"
  | "SC2" => "SCO League 1"
  | "SC3" => "SCO League 2"
  | "D1" => "DEU Bundesliga"
  | "D2" => "DEU 2. Bundesliga"
  | "I1" => "ITA Serie A"
  | "I2" => "ITA Serie B"
  | "SP1" => "ESP La Liga"
  | "SP2" => "ESP Segunda"
  | "F1" => "FRA Ligue 1"
  | "F2" => "FRA Ligue 2"
  | "N1" => "NLD Eredivisie"
  | "B1" => "BEL First Division A"
  | "P1" => "PRT Primeira Liga"
  | "T1" => "TUR Super Lig"
  | "G1" => "GRC Super League"
  | _ => div

/-- The 1X2 candidate selection of `transform_to_watchyscore_format`:
the `for`-loop over `(PSH,PSD,PSA), (PH,PD,PA)` with `break`, then the
`home_odds is None`-guarded Bet365 and market-average fallbacks.  Each
candidate fires exactly when its home column is present (`pd.notna`); the
draw/away columns are then read as optional. -/
def pickH2h (r : FRow) : Option (ℚ × Option ℚ × Option ℚ) :=
  match r.PSH with
  | some h => some (h, r.PSD, r.PSA)
  | none =>
    match r.PH with
    | some h => some (h, r.PD, r.PA)
    | none =>
      match r.B365H with
      | some h => some (h, r.B365D, r.B365A)
      | none =>
        match r.AvgH with
        | some h => some (h, r.AvgD, r.AvgA)
        | none => none

/-- An accepted 1X2 triple (the body written into `markets["h2h"]`). -/
structure FH2H where
  home : ℚ
  draw : ℚ
  away : ℚ
deriving DecidableEq

/-- An accepted over/under body (`markets["totals"]`). -/
structure FTotals where
  over : ℚ
  under : ℚ
  line : ℚ
deriving DecidableEq

/-- `if home_odds and draw_odds and away_odds:` — the acceptance test and
rounding that populate `markets["h2h"]`.  Python truthiness makes a price
of `0.0` count as missing. -/
def h2hMarket (r : FRow) : Option FH2H :=
  match pickH2h r with
  | none => none
  | some (h, dOdd, aOdd) =>
    match dOdd, aOdd with
    | some dv, some av =>
      if h ≠ 0 ∧ dv ≠ 0 ∧ av ≠ 0 then some ⟨round2 h, round2 dv, round2 av⟩ else none
    | _, _ => none

/-- The over/under candidate selection: the loop over `('P>2.5','P<2.5')`,
then Bet365, then the cross-book average, guarded by `over_odds is None`. -/
def pickTotals (r : FRow) : Option (ℚ × Option ℚ) :=
  match r.Pover25 with
  | some o => some (o, r.Punder25)
  | none =>
    match r.B365over25 with
    | some o => some (o, r.B365under25)
    | none =>
      match r.Avgover25 with
      | some o => some (o, r.Avgunder25)
      | none => none

/-- `if over_odds and under_odds:` — acceptance, rounding and the fixed
`line: 2.5` for `markets["totals"]`. -/
def totalsMarket (r : FRow) : Option FTotals :=
  match pickTotals r with
  | none => none
  | some (o, uOdd) =>
    match uOdd with
    | some uv => if o ≠ 0 ∧ uv ≠ 0 then some ⟨round2 o, round2 uv, mkRat 5 2⟩ else none
    | none => none

/-- A match object as built by the fetch pipeline (`markets.h2h = none`
models the empty dict `{}`, likewise for `totals`). -/
structure FMatch where
  home_team : String
  away_team : String
  commence_time : String
  league : String
  league_code : String
  h2h : Option FH2H
  totals : Option FTotals
deriving DecidableEq

/-- The per-row body of the loop in `transform_to_watchyscore_format`:
skip on missing team cells, skip on unparseable date, build the match,
and emit it only when `markets["h2h"]` is non-empty. -/
def processRow (r : FRow) : Option FMatch :=
  if r.HomeTeam.isNone || r.AwayTeam.isNone then none
  else
    match parse_date (r.Date.getD "") r.Time with
    | none => none
    | some ct =>
      let div := r.Div.getD ""
      let m : FMatch :=
        { home_team := r.HomeTeam.getD "", away_team := r.AwayTeam.getD "",
          commence_time := ct, league := leagueName div, league_code := div,
          h2h := h2hMarket r, totals := totalsMarket r }
      if (h2hMarket r).isSome then some m else none

/-- `transform_to_watchyscore_format` restricted to its pure content: the
list of emitted matches (the wrapper also reports `match_count`, `source`
and the wall-clock `last_updated`, which carry no further logic). -/
def transform_to_watchyscore_format (rows : List FRow) : List FMatch :=
  rows.filterMap processRow

/-! ### Spec-side reformulation of the h2h priority chain (§4.1/§9):
an explicit ordered candidate list combined with a first-success-wins
combinator. -/

/-- The four h2h candidate column triples in priority order. -/
def h2hCands (r : FRow) : List (Option ℚ × Option ℚ × Option ℚ) :=
  [(r.PSH, r.PSD, r.PSA), (r.PH, r.PD, r.PA), (r.B365H, r.B365D, r.B365A),
    (r.AvgH, r.AvgD, r.AvgA)]

/-- First candidate whose home price is present wins. -/
def firstHomeCand : List (Option ℚ × Option ℚ × Option ℚ) → Option (ℚ × Option ℚ × Option ℚ)
  | [] => none
  | (h, dOdd, aOdd) :: rest =>
    match h with
    | some hv => some (hv, dOdd, aOdd)
    | none => firstHomeCand rest

/-- Acceptance-and-rounding applied to a selected candidate. -/
def acceptH2h : Option (ℚ × Option ℚ × Option ℚ) → Option FH2H
  | some (h, some dv, some av) =>
    if h ≠ 0 ∧ dv ≠ 0 ∧ av ≠ 0 then some ⟨round2 h, round2 dv, round2 av⟩ else none
  | _ => none

/-- The acceptance step of `h2hMarket` is `acceptH2h` applied to the selected
candidate. -/
theorem h2hMarket_eq_accept (r : FRow) : h2hMarket r = acceptH2h (pickH2h r) := by
  unfold h2hMarket acceptH2h
  rcases pickH2h r with _ | ⟨h, _ | dv, _ | av⟩ <;> rfl

/-! ## `scripts/merge_odds.py`: the record normalizer `parse_match` -/

/-- A market body dict as `parse_match` stores it, with the union of the
keys the recognized dialects use (`{'home':…,'draw':…,'away':…}`,
over/under bodies, btts bodies).  A field is `none` when the key is absent.
An `Option EBody` that is `none` models a key that is absent or maps to a
falsy value (`{}`/`None`). -/
structure EBody where
  home : Option ℚ := none
  draw : Option ℚ := none
  away : Option ℚ := none
  over : Option ℚ := none
  under : Option ℚ := none
  line : Option ℚ := none
  yes : Option ℚ := none
  no : Option ℚ := none
deriving DecidableEq

/-- The `odds` dict being assembled: recognized market keys only. -/
structure OddsMap where
  h2h : Option EBody := none
  totals : Option EBody := none
  btts : Option EBody := none
deriving DecidableEq

/-- The empty odds dict `{}`. -/
def OddsMap.empty : OddsMap := {}

/-- One entry of a `markets` list: `m.get('name','')`, `m.get('type','')`
(field `mtype` models the key `'type'`), and `m.get('odds', {})`. -/
structure MEntry where
  name : String := ""
  mtype : String := ""
  odds : Option EBody := none
deriving DecidableEq

/-- The value under the `markets` key: either a dict or a list. -/
inductive MarketsVal
  | mdict (o : OddsMap)
  | marr (l : List MEntry)
deriving DecidableEq

/-- A raw input record, restricted to the keys `parse_match` probes.
Fields `one`/`X`/`two` model the keys `'1'`/`'X'`/`'2'`. -/
structure RawRecord where
  home_team : Option String := none
  home : Option String := none
  homeTeam : Option String := none
  away_team : Option String := none
  away : Option String := none
  awayTeam : Option String := none
  odds : Option OddsMap := none
  markets : Option MarketsVal := none
  home_odds : Option ℚ := none
  draw_odds : Option ℚ := none
  away_odds : Option ℚ := none
  one : Option ℚ := none
  X : Option ℚ := none
  two : Option ℚ := none
  commence_time : Option String := none
  date : Option String := none
  datetime : Option String := none
  start_time : Option String := none
  league : Option String := none
  competition : Option String := none
  tournament : Option String := none
deriving DecidableEq

/-- Python's string `or`: first operand when truthy (non-empty), else the
second. -/
def pyOr (a b : String) : String := if a = "" then b else a

/-- One iteration of the `for m in markets:` loop: classify the entry by
`name`/`type` and overwrite the corresponding odds key (a later entry of
the same category overwrites an earlier one). -/
def applyEntry (o : OddsMap) (e : MEntry) : OddsMap :=
  let n := lowStr e.name.data
  let t := lowStr e.mtype.data
  if n = "1x2".data || t = "h2h".data then { o with h2h := e.odds }
  else if hasSub n "over".data || hasSub t "total".data then { o with totals := e.odds }
  else if hasSub n "btts".data || hasSub n "both".data then { o with btts := e.odds }
  else o

/-- A canonical match, the output shape of `parse_match` and the unit the
merger works on. -/
structure Match where
  home_team : String
  away_team : String
  commence_time : String
  league : String
  markets : OddsMap
deriving DecidableEq

/-- `parse_match` from `merge_odds.py` (the input is already known to be a
dict — the `isinstance` guard is the struct type itself). -/
def parse_match (r : RawRecord) : Option Match :=
  let home := pyOr (r.home_team.getD "") (pyOr (r.home.getD "") (r.homeTeam.getD ""))
  let away := pyOr (r.away_team.getD "") (pyOr (r.away.getD "") (r.awayTeam.getD ""))
  if home = "" ∨ away = "" then none
  else
    let odds0 : OddsMap := match r.odds with
      | some o => o
      | none => OddsMap.empty
    let odds1 : OddsMap := match r.markets with
      | none => odds0
      | some (.mdict o) => o
      | some (.marr l) => l.foldl applyEntry odds0
    let odds2 : OddsMap :=
      if odds1.h2h.isSome then odds1
      else if r.home_odds.isSome && r.draw_odds.isSome && r.away_odds.isSome then
        { odds1 with
          h2h := some { home := r.home_odds, draw := r.draw_odds, away := r.away_odds } }
      else if r.one.isSome && r.X.isSome && r.two.isSome then
        { odds1 with h2h := some { home := r.one, draw := r.X, away := r.two } }
      else odds1
    let commence := pyOr (r.commence_time.getD "")
      (pyOr (r.date.getD "") (pyOr (r.datetime.getD "") (r.start_time.getD "")))
    let league := pyOr (r.league.getD "")
      (pyOr (r.competition.getD "") (r.tournament.getD "Unknown"))
    some { home_team := home, away_team := away, commence_time := commence,
           league := league, markets := odds2 }

/-- Spec-side team-name resolution: the first non-empty entry of a probe
chain. -/
def firstNonEmpty : List (Option String) → Option String
  | [] => none
  | o :: rest =>
    match o with
    | some s => if s = "" then firstNonEmpty rest else some s
    | none => firstNonEmpty rest

/-! ## `scripts/merge_odds.py`: the window merger -/

/-- `get_day_offset(commence_time, today_str)`: day distance between the
date part of `commence_time` (the prefix before `'T'`, else the first 10
characters) and `today_str`, both via `strptime('%Y-%m-%d')`; `-1` when
`commence_time` is empty or either parse fails. -/
def get_day_offset (commence today : String) : ℤ :=
  if commence = "" then -1
  else
    let md := if commence.data.contains 'T' then commence.data.takeWhile (· != 'T')
      else commence.data.take 10
    match strpYmd md, strpYmd today.data with
    | some (y₁, m₁, d₁), some (y₂, m₂, d₂) => civDays y₁ m₁ d₁ - civDays y₂ m₂ d₂
    | _, _ => -1

/-- Recomputed day offset of a match against `today`. -/
def offOf (today : String) (m : Match) : ℤ := get_day_offset m.commence_time today

/-- `0 <= day < 7`. -/
def inWin (d : ℤ) : Bool := 0 ≤ d && d < 7

/-- The seven day offsets of the window. -/
def dayIdx : List ℤ := [0, 1, 2, 3, 4, 5, 6]

/-- The dedup key
`f"{home_team}|{away_team}|{commence_time}".lower()`. -/
def keyOf (m : Match) : List Char :=
  lowStr (m.home_team.data ++ '|' :: m.away_team.data ++ '|' :: m.commence_time.data)

/-- One day bucket of the persisted window. -/
structure DayBucket where
  date : String
  day_name : String
  match_count : ℕ
  matchList : List Match
deriving DecidableEq

/-- The `meta` block (without the wall-clock `updated_at`); `none` fields
model keys the empty-output path does not emit. -/
structure Meta where
  source : String
  total_matches : ℕ
  coverage_days : Option ℕ
  days_with_data : Option ℕ
  last_refreshed_days : Option (List ℤ)
  error : Option String
deriving DecidableEq

/-- The persisted window. -/
structure Window where
  meta : Meta
  by_day : List (ℤ × DayBucket)
  matchList : List Match
deriving DecidableEq

/-- All matches of a previous window, in bucket order — the iteration
order of `for day_str, day_data in existing['by_day'].items(): for match in
day_data.get('matches', [])`. -/
def histMatches (w : Window) : List Match :=
  (w.by_day.map (fun p => p.2.matchList)).flatten

/-- The loop body shared by the two accumulation passes of `main()`: if
the guard holds, compute the dedup key, and when unseen, append the match
to the bucket of its recomputed offset and mark the key seen.  The guard is
`0 <= day < 7` for the new batch, with the additional
`current_day not in new_days` for carried-over history. -/
def addIf (g : Match → Bool) (today : String)
    (st : (ℤ → List Match) × List (List Char)) (m : Match) :
    (ℤ → List Match) × List (List Char) :=
  if g m then
    if st.2.contains (keyOf m) then st
    else (fun j => if j = offOf today m then st.1 j ++ [m] else st.1 j, keyOf m :: st.2)
  else st

/-- The offsets covered by the new batch (`new_days`, as the list of
in-window offsets of new matches; only membership and its sorted
deduplication are ever used, matching the Python `set`). -/
def newDaysList (new : List Match) (today : String) : List ℤ :=
  (new.map (offOf today)).filter inWin

/-- Ascending insertion of an integer. -/
def insInt (x : ℤ) : List ℤ → List ℤ
  | [] => [x]
  | y :: l => if x ≤ y then x :: y :: l else y :: insInt x l

/-- `sorted(...)` on integers. -/
def sortInt : List ℤ → List ℤ
  | [] => []
  | x :: l => insInt x (sortInt l)

/-- Stable insertion before the first strictly-greater element. -/
def insMatch (x : Match) : List Match → List Match
  | [] => [x]
  | y :: l =>
    if x.commence_time ≤ y.commence_time then x :: y :: l else y :: insMatch x l

/-- `all_matches.sort(key=lambda x: x.get('commence_time',''))` — a stable
sort by commence time. -/
def sortMatches : List Match → List Match
  | [] => []
  | x :: l => insMatch x (sortMatches l)

/-- The per-bucket `date`/`day_name` labels
(`strptime(today) + timedelta(days=offset)`, rendered `%Y-%m-%d` / `%A`).
`main()` only ever calls this with a well-formed generated `today`; an
unparseable `today` (on which Python would raise) is mapped to empty
labels and no theorem depends on that case. -/
def dayLabel (today : String) (off : ℤ) : String × String :=
  match strpYmd today.data with
  | some (y, m, d) =>
    let z := civDays y m d + off
    (renderYmdOfDays z, dayName z)
  | none => ("", "")

/-- The pure merge core of `main()` in `merge_odds.py`: from the parsed
new batch, the optional previous window and `today_str` to the output
window (file I/O and the wall-clock `updated_at` stripped). -/
def mergeOdds (new : List Match) (existing : Option Window) (today : String) : Window :=
  if new.isEmpty && existing.isNone then
    { meta := { source := "oddsharvester", total_matches := 0, coverage_days := none,
                days_with_data := none, last_refreshed_days := none,
                error := some "No data available" },
      by_day := [], matchList := [] }
  else
    let nd := newDaysList new today
    let st1 := new.foldl (addIf (fun m => inWin (offOf today m)) today) (fun _ => [], [])
    let hist := match existing with
      | some w => histMatches w
      | none => []
    let st2 := hist.foldl
      (addIf (fun m => inWin (offOf today m) && !(nd.contains (offOf today m))) today) st1
    let buckets := st2.1
    let total := (dayIdx.map (fun j => (buckets j).length)).sum
    let dwd := (dayIdx.filter (fun j => !(buckets j).isEmpty)).length
    let byDay := dayIdx.map (fun j =>
      (j, { date := (dayLabel today j).1, day_name := (dayLabel today j).2,
            match_count := (buckets j).length, matchList := buckets j : DayBucket }))
    { meta := { source := "oddsharvester", total_matches := total, coverage_days := some 7,
                days_with_data := some dwd,
                last_refreshed_days := some (sortInt nd.dedup), error := none },
      by_day := byDay, matchList := sortMatches ((dayIdx.map buckets).flatten) }

/-- The matches of bucket `d` of a window (`[]` when the bucket is
absent). -/
def bucketOf (w : Window) (d : ℤ) : List Match :=
  match w.by_day.find? (fun p => p.1 == d) with
  | some p => p.2.matchList
  | none => []

/-! ### Spec-side reformulations of the merge algorithm -/

/-- First-occurrence-wins deduplication by key, threading the set of seen
keys. -/
def pruneKey : List Match → List (List Char) → List Match
  | [], _ => []
  | m :: L, seen =>
    if seen.contains (keyOf m) then pruneKey L seen
    else m :: pruneKey L (keyOf m :: seen)

/-- The re-admission rule for carried-over history exactly as the spec
states it: recompute the offset against the current `today` and re-admit
iff the offset lies in `0..6`, the offset is not a refreshed day, and the
dedup key was not already seen. -/
def readmitHist (refreshed : List ℤ) (today : String) :
    List Match → List (List Char) → List Match
  | [], _ => []
  | m :: L, seen =>
    let d := offOf today m
    if 0 ≤ d ∧ d < 7 ∧ d ∉ refreshed ∧ keyOf m ∉ seen then
      m :: readmitHist refreshed today L (keyOf m :: seen)
    else readmitHist refreshed today L seen

/-- The candidate sequence of one merge run: in-window new-batch matches
first, then carried-over history matches that are in-window and not on a
refreshed day. -/
def mergeCands (new hist : List Match) (today : String) : List Match :=
  new.filter (fun m => inWin (offOf today m)) ++
    hist.filter (fun m =>
      inWin (offOf today m) && !((newDaysList new today).contains (offOf today m)))

/-! ## Characterization of the accumulation folds -/

theorem contains_key_iff (s : List (List Char)) (k : List Char) :
    s.contains k = true ↔ k ∈ s := by
  simp [List.contains, List.elem_iff]

theorem containsZ_iff (s : List ℤ) (k : ℤ) : s.contains k = true ↔ k ∈ s := by
  simp [List.contains, List.elem_iff]

theorem contains_key_eq_false (s : List (List Char)) (k : List Char) (h : k ∉ s) :
    s.contains k = false := by
  cases hcb : s.contains k with
  | false => rfl
  | true => exact absurd ((contains_key_iff _ _).mp hcb) h

theorem inWin_iff (d : ℤ) : inWin d = true ↔ 0 ≤ d ∧ d < 7 := by
  simp [inWin]

theorem foldAddIf_fst (g : Match → Bool) (today : String) (L : List Match) :
    ∀ (f : ℤ → List Match) (seen : List (List Char)) (j : ℤ),
    (L.foldl (addIf g today) (f, seen)).1 j =
      f j ++ (pruneKey (L.filter g) seen).filter (fun m => offOf today m == j) := by
  induction L with
  | nil => intro f seen j; simp [pruneKey]
  | cons m L ih =>
    intro f seen j
    simp only [List.foldl_cons, List.filter_cons]
    by_cases hs : keyOf m ∈ seen
    · have hc : seen.contains (keyOf m) = true := (contains_key_iff _ _).mpr hs
      by_cases hg : g m
      · simp [addIf, hg, hs, hc, pruneKey, ih]
      · simp [addIf, hg, ih]
    · have hc : seen.contains (keyOf m) = false := by
        simpa using fun h => hs ((contains_key_iff _ _).mp h)
      by_cases hg : g m
      · simp only [addIf, hg, if_true, hs, hc, Bool.false_eq_true, if_false]
        rw [ih]
        simp only [pruneKey, hc, Bool.false_eq_true, if_false, List.filter_cons]
        by_cases hj : offOf today m = j
        · subst hj
          simp [List.append_assoc]
        · have h1 : (offOf today m == j) = false := by simpa using hj
          have h2 : ¬ j = offOf today m := fun h => hj h.symm
          simp [h1, h2]
      · simp [addIf, hg, ih]

theorem foldAddIf_snd (g : Match → Bool) (today : String) (L : List Match) :
    ∀ (f : ℤ → List Match) (seen : List (List Char)),
    (L.foldl (addIf g today) (f, seen)).2 =
      ((pruneKey (L.filter g) seen).reverse.map keyOf) ++ seen := by
  induction L with
  | nil => intro f seen; simp [pruneKey]
  | cons m L ih =>
    intro f seen
    simp only [List.foldl_cons, List.filter_cons]
    by_cases hs : keyOf m ∈ seen
    · have hc : seen.contains (keyOf m) = true := (contains_key_iff _ _).mpr hs
      by_cases hg : g m
      · simp [addIf, hg, hs, hc, pruneKey, ih]
      · simp [addIf, hg, ih]
    · have hc : seen.contains (keyOf m) = false := by
        simpa using fun h => hs ((contains_key_iff _ _).mp h)
      by_cases hg : g m
      · simp only [addIf, hg, if_true, hs, hc, Bool.false_eq_true, if_false]
        rw [ih]
        simp [pruneKey, hs, hc, List.append_assoc]
      · simp [addIf, hg, ih]

theorem pruneKey_append (A B : List Match) :
    ∀ seen, pruneKey (A ++ B) seen =
      pruneKey A seen ++ pruneKey B ((pruneKey A seen).reverse.map keyOf ++ seen) := by
  induction A with
  | nil => intro seen; simp [pruneKey]
  | cons m A ih =>
    intro seen
    by_cases hs : keyOf m ∈ seen
    · have hc : seen.contains (keyOf m) = true := (contains_key_iff _ _).mpr hs
      simp [pruneKey, hs, hc, ih]
    · have hc : seen.contains (keyOf m) = false := by
        simpa using fun h => hs ((contains_key_iff _ _).mp h)
      rw [List.cons_append]
      simp only [pruneKey, hs, hc, Bool.false_eq_true, if_false]
      rw [ih]
      simp [List.append_assoc]

/-- Deduplication depends on the seen set only through membership. -/
theorem pruneKey_congrSeen (L : List Match) :
    ∀ (s₁ s₂ : List (List Char)), (∀ k, (k ∈ s₁) ↔ (k ∈ s₂)) →
    pruneKey L s₁ = pruneKey L s₂ := by
  induction L with
  | nil => intro _ _ _; rfl
  | cons m L ih =>
    intro s₁ s₂ h
    by_cases hs : keyOf m ∈ s₂
    · have hs₁ : keyOf m ∈ s₁ := (h _).mpr hs
      have hc₂ : s₂.contains (keyOf m) = true := (contains_key_iff _ _).mpr hs
      have hc₁ : s₁.contains (keyOf m) = true := (contains_key_iff _ _).mpr hs₁
      simp [pruneKey, hs, hs₁, hc₁, hc₂, ih _ _ h]
    · have hs₁ : keyOf m ∉ s₁ := fun hx => hs ((h _).mp hx)
      have hc₂ : s₂.contains (keyOf m) = false := by
        simpa using fun hx => hs ((contains_key_iff _ _).mp hx)
      have hc₁ : s₁.contains (keyOf m) = false := by
        simpa using fun hx => hs₁ ((contains_key_iff _ _).mp hx)
      have h' : ∀ k, (k ∈ keyOf m :: s₁) ↔ (k ∈ keyOf m :: s₂) := by
        intro k; simp [h k]
      simp [pruneKey, hs, hs₁, hc₁, hc₂, ih _ _ h']

/-- The spec's verbatim re-admission rule computes exactly the guarded
deduplication the code performs. -/
theorem readmitHist_eq_pruneKey (refreshed : List ℤ) (today : String) (L : List Match) :
    ∀ seen, readmitHist refreshed today L seen =
      pruneKey (L.filter fun m => inWin (offOf today m) && !(refreshed.contains (offOf today m)))
        seen := by
  induction L with
  | nil => intro seen; rfl
  | cons m L ih =>
    intro seen
    simp only [readmitHist, List.filter_cons]
    by_cases hw : inWin (offOf today m) = true
    · by_cases hr : offOf today m ∈ refreshed
      · have h1 : ¬(0 ≤ offOf today m ∧ offOf today m < 7 ∧ offOf today m ∉ refreshed ∧
            keyOf m ∉ seen) := fun hx => hx.2.2.1 hr
        have h2 : refreshed.contains (offOf today m) = true := (containsZ_iff _ _).mpr hr
        simp [h1, h2, hw, hr, ih]
      · have h03 := (inWin_iff _).mp hw
        have h2 : refreshed.contains (offOf today m) = false := by
          simpa using fun hy => hr ((containsZ_iff _ _).mp hy)
        by_cases hs : keyOf m ∈ seen
        · have h1 : ¬(0 ≤ offOf today m ∧ offOf today m < 7 ∧ offOf today m ∉ refreshed ∧
              keyOf m ∉ seen) := fun hx => hx.2.2.2 hs
          have hcs : seen.contains (keyOf m) = true := (contains_key_iff _ _).mpr hs
          simp [h1, h2, hw, hr, hs, hcs, pruneKey, ih]
        · have h1 : 0 ≤ offOf today m ∧ offOf today m < 7 ∧ offOf today m ∉ refreshed ∧
              keyOf m ∉ seen := ⟨h03.1, h03.2, hr, hs⟩
          have hcs : seen.contains (keyOf m) = false := by
            simpa using fun hy => hs ((contains_key_iff _ _).mp hy)
          simp [h1, h2, hw, hr, hs, hcs, pruneKey, ih]
    · have hwf : inWin (offOf today m) = false := by
        revert hw; cases inWin (offOf today m) <;> simp
      have h1 : ¬(0 ≤ offOf today m ∧ offOf today m < 7 ∧ offOf today m ∉ refreshed ∧
          keyOf m ∉ seen) := by
        intro hx; exact hw ((inWin_iff _).mpr ⟨hx.1, hx.2.1⟩)
      simp [h1, hwf, ih]

/-! ## The master characterization of `mergeOdds` -/

/-- The output window determined by `today`, the refreshed-day list and the
admitted candidate sequence: bucket `j` holds the admitted matches of
recomputed offset `j`. -/
def windowFrom (today : String) (nd : List ℤ) (adm : List Match) : Window :=
  let buckets := fun j => adm.filter (fun m => offOf today m == j)
  { meta := { source := "oddsharvester",
              total_matches := (dayIdx.map (fun j => (buckets j).length)).sum,
              coverage_days := some 7,
              days_with_data := some (dayIdx.filter (fun j => !(buckets j).isEmpty)).length,
              last_refreshed_days := some (sortInt nd.dedup), error := none },
    by_day := dayIdx.map (fun j =>
      (j, { date := (dayLabel today j).1, day_name := (dayLabel today j).2,
            match_count := (buckets j).length, matchList := buckets j : DayBucket })),
    matchList := sortMatches ((dayIdx.map buckets).flatten) }

theorem mergeOdds_some (new : List Match) (prev : Window) (today : String) :
    mergeOdds new (some prev) today =
      windowFrom today (newDaysList new today)
        (pruneKey (mergeCands new (histMatches prev) today) []) := by
  have hb : ((histMatches prev).foldl
        (addIf (fun m => inWin (offOf today m) &&
          !((newDaysList new today).contains (offOf today m))) today)
        (new.foldl (addIf (fun m => inWin (offOf today m)) today) (fun _ => [], []))).1 =
      fun j => (pruneKey (mergeCands new (histMatches prev) today) []).filter
        (fun m => offOf today m == j) := by
    funext j
    have h1f := foldAddIf_fst (fun m => inWin (offOf today m)) today new (fun _ => []) [] j
    have h1s := foldAddIf_snd (fun m => inWin (offOf today m)) today new (fun _ => []) []
    have h2f := foldAddIf_fst
      (fun m => inWin (offOf today m) && !((newDaysList new today).contains (offOf today m)))
      today (histMatches prev)
      (new.foldl (addIf (fun m => inWin (offOf today m)) today) (fun _ => [], [])).1
      (new.foldl (addIf (fun m => inWin (offOf today m)) today) (fun _ => [], [])).2 j
    rw [Prod.mk.eta] at h2f
    rw [h2f, h1f, h1s]
    unfold mergeCands
    rw [pruneKey_append, List.filter_append]
    simp
  unfold mergeOdds windowFrom
  simp only [List.isEmpty_eq_true, Option.isNone_some, Bool.and_false, Bool.false_eq_true,
    if_false]
  rw [hb]

theorem mergeOdds_none (new : List Match) (today : String) (hne : new ≠ []) :
    mergeOdds new none today =
      windowFrom today (newDaysList new today)
        (pruneKey (new.filter (fun m => inWin (offOf today m))) []) := by
  have hb : (new.foldl (addIf (fun m => inWin (offOf today m)) today) (fun _ => [], [])).1 =
      fun j => (pruneKey (new.filter (fun m => inWin (offOf today m))) []).filter
        (fun m => offOf today m == j) := by
    funext j
    have h1f := foldAddIf_fst (fun m => inWin (offOf today m)) today new (fun _ => []) [] j
    rw [h1f]
    simp
  have hne' : new.isEmpty = false := by
    cases new with
    | nil => exact absurd rfl hne
    | cons a l => rfl
  unfold mergeOdds windowFrom
  simp only [hne', Option.isNone_none, Bool.false_and, Bool.and_false, Bool.false_eq_true,
    if_false, List.foldl_nil]
  rw [hb]

/-- `find?` over an index-tagged map hits the entry of the first occurrence
of the index. -/
theorem find?_idx {α : Type} (F : ℤ → α) (j : ℤ) : ∀ (ds : List ℤ), j ∈ ds →
    (ds.map (fun i => (i, F i))).find? (fun p => p.1 == j) = some (j, F j) := by
  intro ds
  induction ds with
  | nil => intro h; cases h
  | cons i ds ih =>
    intro h
    by_cases hij : i = j
    · subst hij
      simp [List.find?]
    · have : j ∈ ds := by
        rcases List.mem_cons.mp h with h' | h'
        · exact absurd h'.symm hij
        · exact h'
      have hbeq : (i == j) = false := by simpa using hij
      simp [List.find?, hbeq, ih this]

theorem mem_dayIdx (j : ℤ) : j ∈ dayIdx ↔ 0 ≤ j ∧ j < 7 := by
  simp [dayIdx]
  omega

theorem bucketOf_windowFrom (today : String) (nd : List ℤ) (adm : List Match) (j : ℤ)
    (hj : 0 ≤ j ∧ j < 7) :
    bucketOf (windowFrom today nd adm) j =
      adm.filter (fun m => offOf today m == j) := by
  have h := find?_idx
    (fun i => ({ date := (dayLabel today i).1, day_name := (dayLabel today i).2,
                 match_count := (adm.filter (fun m => offOf today m == i)).length,
                 matchList := adm.filter (fun m => offOf today m == i) } : DayBucket))
    j dayIdx ((mem_dayIdx j).mpr hj)
  simp only [bucketOf, windowFrom]
  rw [h]

/-! ## Properties of the deduplication and the sorts -/

theorem pruneKey_subset (L : List Match) :
    ∀ (s : List (List Char)) (m : Match), m ∈ pruneKey L s → m ∈ L := by
  induction L with
  | nil => intro s m h; simp [pruneKey] at h
  | cons x L ih =>
    intro s m h
    by_cases hs : keyOf x ∈ s
    · have hc : s.contains (keyOf x) = true := (contains_key_iff _ _).mpr hs
      rw [pruneKey, hc] at h
      exact List.mem_cons_of_mem _ (ih _ _ h)
    · have hc : s.contains (keyOf x) = false := by
        simpa using fun hx => hs ((contains_key_iff _ _).mp hx)
      rw [pruneKey, hc] at h
      simp only [Bool.false_eq_true, if_false] at h
      rcases List.mem_cons.mp h with h' | h'
      · exact h' ▸ List.mem_cons_self _ _
      · exact List.mem_cons_of_mem _ (ih _ _ h')

theorem pruneKey_key_not_seen (L : List Match) :
    ∀ (s : List (List Char)) (m : Match), m ∈ pruneKey L s → keyOf m ∉ s := by
  induction L with
  | nil => intro s m h; simp [pruneKey] at h
  | cons x L ih =>
    intro s m h
    by_cases hs : keyOf x ∈ s
    · have hc : s.contains (keyOf x) = true := (contains_key_iff _ _).mpr hs
      rw [pruneKey, hc] at h
      exact ih _ _ h
    · have hc : s.contains (keyOf x) = false := by
        simpa using fun hx => hs ((contains_key_iff _ _).mp hx)
      rw [pruneKey, hc] at h
      simp only [Bool.false_eq_true, if_false] at h
      rcases List.mem_cons.mp h with h' | h'
      · subst h'; exact hs
      · intro hmem
        exact ih _ _ h' (List.mem_cons_of_mem _ hmem)

theorem pruneKey_nodupKeys (L : List Match) :
    ∀ (s : List (List Char)), ((pruneKey L s).map keyOf).Nodup := by
  induction L with
  | nil => intro s; simp [pruneKey]
  | cons x L ih =>
    intro s
    by_cases hs : keyOf x ∈ s
    · have hc : s.contains (keyOf x) = true := (contains_key_iff _ _).mpr hs
      rw [pruneKey, hc]
      exact ih s
    · have hc : s.contains (keyOf x) = false := by
        simpa using fun hx => hs ((contains_key_iff _ _).mp hx)
      rw [pruneKey, hc]
      simp only [Bool.false_eq_true, if_false, List.map_cons, List.nodup_cons]
      constructor
      · intro hmem
        rcases List.mem_map.mp hmem with ⟨y, hy, hky⟩
        exact pruneKey_key_not_seen L _ y hy (hky ▸ List.mem_cons_self _ _)
      · exact ih _

theorem pruneKey_noop (L : List Match) :
    ∀ (s : List (List Char)), (∀ m ∈ L, keyOf m ∉ s) → ((L.map keyOf).Nodup) →
    pruneKey L s = L := by
  induction L with
  | nil => intro s _ _; rfl
  | cons x L ih =>
    intro s hdisj hnd
    have hs : keyOf x ∉ s := hdisj x (List.mem_cons_self _ _)
    have hc : s.contains (keyOf x) = false := by
      simpa using fun hx => hs ((contains_key_iff _ _).mp hx)
    rw [pruneKey, hc]
    simp only [Bool.false_eq_true, if_false]
    congr 1
    apply ih
    · intro m hm
      intro hmem
      rcases List.mem_cons.mp hmem with h' | h'
      · rcases List.map_cons keyOf x L ▸ hnd with _
        have : keyOf x ∉ L.map keyOf := (List.nodup_cons.mp (by simpa using hnd)).1
        exact this (h' ▸ List.mem_map_of_mem keyOf hm)
      · exact hdisj m (List.mem_cons_of_mem _ hm) h'
    · exact (List.nodup_cons.mp (by simpa using hnd)).2

/-- The filter-by-key of a deduplicated list: empty when the key was
already seen, else the first occurrence in the input. -/
theorem pruneKey_filterKey (L : List Match) :
    ∀ (s : List (List Char)) (k : List Char),
    (pruneKey L s).filter (fun m => keyOf m == k) =
      if s.contains k then [] else (L.filter (fun m => keyOf m == k)).take 1 := by
  induction L with
  | nil => intro s k; simp [pruneKey]
  | cons x L ih =>
    intro s k
    by_cases hs : keyOf x ∈ s
    · have hc : s.contains (keyOf x) = true := (contains_key_iff _ _).mpr hs
      rw [pruneKey, hc]
      simp only [if_true]
      rw [ih]
      by_cases hk : keyOf x = k
      · subst hk
        simp [hs, hc, List.filter_cons]
      · have hbk : (keyOf x == k) = false := by simpa using hk
        simp [List.filter_cons, hbk]
    · have hc : s.contains (keyOf x) = false := by
        simpa using fun hx => hs ((contains_key_iff _ _).mp hx)
      rw [pruneKey, hc]
      simp only [Bool.false_eq_true, if_false]
      by_cases hk : keyOf x = k
      · subst hk
        have hck : s.contains (keyOf x) = false := hc
        simp only [List.filter_cons, beq_self_eq_true, if_true, hck]
        rw [ih]
        have : (keyOf x :: s).contains (keyOf x) = true :=
          (contains_key_iff _ _).mpr (List.mem_cons_self _ _)
        simp [this]
      · have hbk : (keyOf x == k) = false := by simpa using hk
        simp only [List.filter_cons, hbk, Bool.false_eq_true, if_false]
        rw [ih]
        have hmem : ((keyOf x :: s).contains k) = (s.contains k) := by
          by_cases hks : k ∈ s
          · rw [(contains_key_iff _ _).mpr hks,
              (contains_key_iff _ _).mpr (List.mem_cons_of_mem _ hks)]
          · have hkx : k ∉ keyOf x :: s := by
              intro hy
              rcases List.mem_cons.mp hy with h' | h'
              · exact hk h'.symm
              · exact hks h'
            rw [contains_key_eq_false _ _ hks, contains_key_eq_false _ _ hkx]
        rw [hmem]

/-! ## Sorting and grouping lemmas -/

theorem insMatch_perm (x : Match) : ∀ (l : List Match), List.Perm (insMatch x l) (x :: l) := by
  intro l
  induction l with
  | nil => simp [insMatch]
  | cons y l ih =>
    rw [insMatch]
    by_cases h : x.commence_time ≤ y.commence_time
    · simp [h]
    · simp only [h, if_false]
      exact (ih.cons y).trans (List.Perm.swap x y l)

theorem sortMatches_perm : ∀ (l : List Match), List.Perm (sortMatches l) l := by
  intro l
  induction l with
  | nil => simp [sortMatches]
  | cons x l ih =>
    rw [sortMatches]
    exact (insMatch_perm x (sortMatches l)).trans (ih.cons x)

theorem insInt_mem (x y : ℤ) : ∀ (l : List ℤ), y ∈ insInt x l ↔ y = x ∨ y ∈ l := by
  intro l
  induction l with
  | nil => simp [insInt]
  | cons z l ih =>
    rw [insInt]
    by_cases h : x ≤ z
    · simp [h]
    · simp only [h, if_false, List.mem_cons, ih]
      tauto

theorem sortInt_mem (y : ℤ) : ∀ (l : List ℤ), y ∈ sortInt l ↔ y ∈ l := by
  intro l
  induction l with
  | nil => simp [sortInt]
  | cons x l ih =>
    rw [sortInt, insInt_mem]
    simp [ih]

theorem mem_newDaysList (new : List Match) (today : String) (d : ℤ) :
    d ∈ newDaysList new today ↔
      (0 ≤ d ∧ d < 7 ∧ ∃ m ∈ new, offOf today m = d) := by
  unfold newDaysList
  simp only [List.mem_filter, List.mem_map]
  constructor
  · rintro ⟨⟨m, hm, hoff⟩, hwin⟩
    have := (inWin_iff d).mp hwin
    exact ⟨this.1, this.2, m, hm, hoff⟩
  · rintro ⟨h0, h7, m, hm, hoff⟩
    exact ⟨⟨m, hm, hoff⟩, (inWin_iff d).mpr ⟨h0, h7⟩⟩

theorem flatten_map_nil {α β : Type} (ds : List α) :
    (ds.map (fun _ => ([] : List β))).flatten = [] := by
  induction ds with
  | nil => rfl
  | cons e ds ih => simp [ih]

theorem flatten_group_insert (today : String) (x : Match) (F : ℤ → List Match) :
    ∀ (ds : List ℤ), offOf today x ∈ ds → ds.Nodup →
    List.Perm ((ds.map (fun j => if offOf today x = j then x :: F j else F j)).flatten)
      (x :: (ds.map F).flatten) := by
  intro ds
  induction ds with
  | nil => intro h; cases h
  | cons e ds ih =>
    intro hmem hnd
    by_cases he : offOf today x = e
    · have hnotin : offOf today x ∉ ds := he ▸ (List.nodup_cons.mp hnd).1
      have hmap : ds.map (fun j => if offOf today x = j then x :: F j else F j) = ds.map F := by
        apply List.map_congr_left
        intro a ha
        have : offOf today x ≠ a := fun hx => hnotin (hx ▸ ha)
        simp [this]
      rw [he] at hmap
      simp [he, hmap]
    · have hmem' : offOf today x ∈ ds := by
        rcases List.mem_cons.mp hmem with h' | h'
        · exact absurd h' he
        · exact h'
      have ih' := ih hmem' (List.nodup_cons.mp hnd).2
      simp only [List.map_cons, List.flatten_cons, he, if_false]
      exact (List.Perm.append_left (F e) ih').trans List.perm_middle

/-- Regrouping a list by day offset is a permutation of it when every
offset lies in the (duplicate-free) index list. -/
theorem flatten_group_perm (today : String) (ds : List ℤ) (hnd : ds.Nodup) :
    ∀ (L : List Match), (∀ m ∈ L, offOf today m ∈ ds) →
    List.Perm ((ds.map (fun j => L.filter (fun m => offOf today m == j))).flatten) L := by
  intro L
  induction L with
  | nil =>
    intro _
    simp only [List.filter_nil]
    rw [flatten_map_nil]
  | cons x L ih =>
    intro hall
    have hx : offOf today x ∈ ds := hall x (List.mem_cons_self _ _)
    have hmap : ds.map (fun j => (x :: L).filter (fun m => offOf today m == j)) =
        ds.map (fun j => if offOf today x = j then
          x :: L.filter (fun m => offOf today m == j)
          else L.filter (fun m => offOf today m == j)) := by
      apply List.map_congr_left
      intro a _
      rw [List.filter_cons]
      by_cases h : offOf today x = a
      · simp [h]
      · have hb : (offOf today x == a) = false := by simpa using h
        simp [h, hb]
    rw [hmap]
    refine (flatten_group_insert today x _ ds hx hnd).trans (List.Perm.cons x ?_)
    exact ih (fun m hm => hall m (List.mem_cons_of_mem _ hm))

theorem filter_filter_ne (today : String) (L : List Match) (e j : ℤ) (hne : e ≠ j) :
    (L.filter (fun m => offOf today m == e)).filter (fun m => offOf today m == j) = [] := by
  rw [List.filter_eq_nil_iff]
  intro m hm
  have he : offOf today m = e := by simpa using (List.mem_filter.mp hm).2
  simp [he, hne]

theorem filter_group_flatten (today : String) (j : ℤ) :
    ∀ (ds : List ℤ) (L : List Match), ds.Nodup →
    ((ds.map (fun e => L.filter (fun m => offOf today m == e))).flatten).filter
        (fun m => offOf today m == j) =
      if j ∈ ds then L.filter (fun m => offOf today m == j) else [] := by
  intro ds
  induction ds with
  | nil => intro L _; simp
  | cons e ds ih =>
    intro L hnd
    simp only [List.map_cons, List.flatten_cons, List.filter_append]
    rw [ih L (List.nodup_cons.mp hnd).2]
    by_cases hej : e = j
    · have hj : j ∉ ds := by rw [← hej]; exact (List.nodup_cons.mp hnd).1
      have hmem : j ∈ e :: ds := by rw [← hej]; exact List.mem_cons_self e ds
      have hff : (L.filter (fun m => offOf today m == e)).filter
          (fun m => offOf today m == j) = L.filter (fun m => offOf today m == j) := by
        rw [hej, List.filter_filter]
        apply List.filter_congr
        intro m _
        simp
      rw [hff]
      simp [hj, hmem]
    · rw [filter_filter_ne today L e j hej]
      by_cases hj : j ∈ ds
      · have hmem : j ∈ e :: ds := List.mem_cons_of_mem _ hj
        simp [hj, hmem]
      · have hmem : j ∉ e :: ds := by
          intro h
          rcases List.mem_cons.mp h with h' | h'
          · exact hej h'.symm
          · exact hj h'
        simp [hj, hmem]

/-! ## Further support lemmas -/

theorem find?_eq_head?_filter {α : Type} (p : α → Bool) :
    ∀ (l : List α), l.find? p = (l.filter p).head? := by
  intro l
  induction l with
  | nil => rfl
  | cons x l ih =>
    cases hx : p x with
    | true => rw [List.find?_cons_of_pos _ hx, List.filter_cons_of_pos hx]; rfl
    | false =>
      rw [List.find?_cons_of_neg _ (by simp [hx]), List.filter_cons_of_neg (by simp [hx])]
      exact ih

theorem mem_mergeCands_inWin (new hist : List Match) (today : String) (m : Match)
    (hm : m ∈ mergeCands new hist today) : inWin (offOf today m) = true := by
  unfold mergeCands at hm
  rcases List.mem_append.mp hm with h | h
  · exact (List.mem_filter.mp h).2
  · have := (List.mem_filter.mp h).2
    exact (Bool.and_eq_true_iff.mp this).1

theorem histMatches_windowFrom (today : String) (nd : List ℤ) (adm : List Match) :
    histMatches (windowFrom today nd adm) =
      (dayIdx.map (fun j => adm.filter (fun m => offOf today m == j))).flatten := by
  unfold histMatches windowFrom
  rw [List.map_map]
  rfl

theorem windowFrom_congr (today : String) (nd : List ℤ) (A B : List Match)
    (h : ∀ j : ℤ, A.filter (fun m => offOf today m == j) =
      B.filter (fun m => offOf today m == j)) :
    windowFrom today nd A = windowFrom today nd B := by
  have hfun : (fun j => A.filter (fun m => offOf today m == j)) =
      (fun j => B.filter (fun m => offOf today m == j)) := funext h
  unfold windowFrom
  rw [hfun]

theorem dayIdx_nodup : dayIdx.Nodup := by decide

/-! ## Claim C7 -/

/-- The concrete input of claim C7: an empty new batch with no previous
window. -/
def todayC7 : String := "2025-01-16"

/-- C7, counterexample: on an empty new batch with no previous window the
merger emits an output whose `by_day` mapping is the *empty* dict — it has
no bucket for offset 0 (nor any other), contradicting the claim that all 7
day-buckets are present and empty; total_matches and the error marker do
behave as claimed. -/
theorem C7_counterexample :
    (mergeOdds [] none todayC7).by_day.find? (fun p => p.1 == 0) = none ∧
    (mergeOdds [] none todayC7).by_day = [] ∧
    (mergeOdds [] none todayC7).meta.total_matches = 0 ∧
    (mergeOdds [] none todayC7).meta.error = some "No data available" :=
  ⟨rfl, rfl, rfl, rfl⟩

/-- C7, amended: when the new batch is empty and no previous window
exists, the merger does not fail but produces a well-formed output whose
`by_day` mapping is empty (the 7 buckets are absent, not
present-and-empty), with `meta.total_matches = 0` and the explicit
`meta.error = "No data available"` marker set. -/
theorem C7_empty_merge (today : String) :
    mergeOdds [] none today =
      { meta := { source := "oddsharvester", total_matches := 0, coverage_days := none,
                  days_with_data := none, last_refreshed_days := none,
                  error := some "No data available" },
        by_day := [], matchList := [] } := rfl

/-! ## Claim C2 -/

/-- The concrete previous-window match of claim C2: it sits in bucket 2
for `today = 2025-01-16`. -/
def mC2 : Match :=
  { home_team := "Arsenal", away_team := "Chelsea",
    commence_time := "2025-01-18T20:00:00Z", league := "ENG Premier League",
    markets := {} }

/-- The concrete previous window of claim C2. -/
def prevC2 : Window :=
  { meta := { source := "oddsharvester", total_matches := 1, coverage_days := some 7,
              days_with_data := some 1, last_refreshed_days := some [], error := none },
    by_day := [(2, { date := "2025-01-18", day_name := "Saturday", match_count := 1,
                     matchList := [mC2] })],
    matchList := [mC2] }

/-- C2: for every match in every bucket of the previous window, merge
recomputes its day offset against the current `today` and re-admits it
into the bucket of that recomputed offset iff the offset lies in `0..6`,
the offset is not a refreshed day, and its dedup key was not already seen
(keys of the deduplicated new batch first, then keys of earlier re-admitted
history) — stated as: each output bucket is the new-batch part followed by
exactly the history matches accepted by the verbatim re-admission rule
`readmitHist`.  In particular the concrete match in bucket 2 for
`today = 2025-01-16` lands in bucket 1 when merged with an empty new batch
at `today = 2025-01-17`, and is dropped entirely at `today = 2025-01-23`. -/
theorem C2_history_readmission :
    (∀ (new : List Match) (prev : Window) (today : String) (j : Fin 7),
      bucketOf (mergeOdds new (some prev) today) (j : ℤ) =
        (pruneKey (new.filter (fun m => inWin (offOf today m))) []).filter
          (fun m => offOf today m == (j : ℤ)) ++
        (readmitHist (newDaysList new today) today (histMatches prev)
            ((pruneKey (new.filter (fun m => inWin (offOf today m))) []).map keyOf)).filter
          (fun m => offOf today m == (j : ℤ))) ∧
    bucketOf (mergeOdds [] (some prevC2) "2025-01-17") 1 = [mC2] ∧
    bucketOf (mergeOdds [] (some prevC2) "2025-01-17") 2 = [] ∧
    (mergeOdds [] (some prevC2) "2025-01-23").matchList = [] := by
  refine ⟨?_, by decide, by decide, by decide⟩
  intro new prev today j
  have hj : 0 ≤ (j : ℤ) ∧ (j : ℤ) < 7 := by
    constructor
    · exact Int.ofNat_nonneg _
    · exact_mod_cast j.isLt
  rw [mergeOdds_some, bucketOf_windowFrom _ _ _ _ hj]
  unfold mergeCands
  rw [pruneKey_append, List.filter_append]
  congr 1
  rw [readmitHist_eq_pruneKey]
  congr 1
  apply pruneKey_congrSeen
  intro k
  simp

/-! ## Claim C3 -/

/-- C3: when the new batch contains matches only for day-offset 3 (and is
nonempty, with pairwise distinct dedup keys across the inputs) and the
previous window has buckets at offsets 0, 3 and 5 whose matches recompute
to those offsets (today unchanged), the merged offset-3 bucket equals
exactly the new batch, the offset-0 and offset-5 buckets are unchanged,
and a day-offset is refreshed iff it is in `0..6` and some new-batch match
recomputes to it. -/
theorem C3_refresh_replaces_bucket
    (new : List Match) (prev : Window) (b0 b3 b5 : DayBucket) (today : String)
    (hprev : prev.by_day = [(0, b0), (3, b3), (5, b5)])
    (hne : new ≠ [])
    (hoff : ∀ m ∈ new, offOf today m = 3)
    (h0 : ∀ m ∈ b0.matchList, offOf today m = 0)
    (h3 : ∀ m ∈ b3.matchList, offOf today m = 3)
    (h5 : ∀ m ∈ b5.matchList, offOf today m = 5)
    (hkeys : ((new ++ b0.matchList ++ b3.matchList ++ b5.matchList).map keyOf).Nodup) :
    bucketOf (mergeOdds new (some prev) today) 3 = new ∧
    bucketOf (mergeOdds new (some prev) today) 0 = b0.matchList ∧
    bucketOf (mergeOdds new (some prev) today) 5 = b5.matchList ∧
    (∀ d : ℤ, d ∈ ((mergeOdds new (some prev) today).meta.last_refreshed_days.getD []) ↔
      (0 ≤ d ∧ d < 7 ∧ ∃ m ∈ new, offOf today m = d)) := by
  -- membership of the refreshed-day list
  have hnd : ∀ d : ℤ, d ∈ newDaysList new today ↔ d = 3 := by
    intro d
    rw [mem_newDaysList]
    constructor
    · rintro ⟨_, _, m, hm, hoffm⟩
      rw [← hoffm, hoff m hm]
    · rintro rfl
      rcases List.exists_mem_of_ne_nil new hne with ⟨m, hm⟩
      exact ⟨by norm_num, by norm_num, m, hm, hoff m hm⟩
  -- the filtered new batch is the whole batch
  have hnewF : new.filter (fun m => inWin (offOf today m)) = new := by
    rw [List.filter_eq_self]
    intro m hm
    rw [hoff m hm]
    decide
  -- history in bucket order
  have hhist : histMatches prev = b0.matchList ++ (b3.matchList ++ (b5.matchList ++ [])) := by
    unfold histMatches
    rw [hprev]
    simp
  -- the history guard keeps exactly the 0- and 5-buckets
  have hn0 : (0 : ℤ) ∉ newDaysList new today := fun hx => by
    have := (hnd 0).mp hx; norm_num at this
  have hn5 : (5 : ℤ) ∉ newDaysList new today := fun hx => by
    have := (hnd 5).mp hx; norm_num at this
  have hn3 : (3 : ℤ) ∈ newDaysList new today := (hnd 3).mpr rfl
  have hg0 : ∀ m ∈ b0.matchList,
      (inWin (offOf today m) && !((newDaysList new today).contains (offOf today m))) = true := by
    intro m hm
    rw [h0 m hm]
    simp [inWin, hn0]
  have hg5 : ∀ m ∈ b5.matchList,
      (inWin (offOf today m) && !((newDaysList new today).contains (offOf today m))) = true := by
    intro m hm
    rw [h5 m hm]
    simp [inWin, hn5]
  have hg3 : ∀ m ∈ b3.matchList,
      (inWin (offOf today m) && !((newDaysList new today).contains (offOf today m))) = false := by
    intro m hm
    rw [h3 m hm]
    simp [inWin, hn3]
  have hhistF : (histMatches prev).filter
      (fun m => inWin (offOf today m) && !((newDaysList new today).contains (offOf today m))) =
      b0.matchList ++ b5.matchList := by
    have t0 := List.filter_eq_self.mpr hg0
    have t5 := List.filter_eq_self.mpr hg5
    have t3 : b3.matchList.filter (fun m => inWin (offOf today m) &&
        !((newDaysList new today).contains (offOf today m))) = [] :=
      List.filter_eq_nil_iff.mpr (fun m hm hx => by rw [hg3 m hm] at hx; simp at hx)
    rw [hhist, List.filter_append, List.filter_append, List.filter_append, t0, t5, t3]
    simp
  -- the candidate sequence; deduplication is a no-op
  have hcands : mergeCands new (histMatches prev) today =
      new ++ (b0.matchList ++ b5.matchList) := by
    unfold mergeCands
    rw [hnewF, hhistF]
  have hsub : ((new ++ (b0.matchList ++ b5.matchList)).map keyOf).Nodup := by
    refine List.Nodup.sublist (List.Sublist.map keyOf ?_) hkeys
    have h1 : new ++ (b0.matchList ++ b5.matchList) =
        (new ++ b0.matchList) ++ b5.matchList := by simp [List.append_assoc]
    rw [h1]
    exact List.Sublist.append (List.sublist_append_left _ _) (List.Sublist.refl _)
  have hprune : pruneKey (mergeCands new (histMatches prev) today) [] =
      new ++ (b0.matchList ++ b5.matchList) := by
    rw [hcands]
    exact pruneKey_noop _ _ (fun m _ => by simp) hsub
  -- per-bucket filters
  have hb3 : (new ++ (b0.matchList ++ b5.matchList)).filter
      (fun m => offOf today m == (3 : ℤ)) = new := by
    have t1 : new.filter (fun m => offOf today m == (3 : ℤ)) = new :=
      List.filter_eq_self.mpr (fun m hm => by simp [hoff m hm])
    have t2 : b0.matchList.filter (fun m => offOf today m == (3 : ℤ)) = [] :=
      List.filter_eq_nil_iff.mpr (fun m hm => by simp [h0 m hm])
    have t3 : b5.matchList.filter (fun m => offOf today m == (3 : ℤ)) = [] :=
      List.filter_eq_nil_iff.mpr (fun m hm => by simp [h5 m hm])
    rw [List.filter_append, List.filter_append, t1, t2, t3]
    simp
  have hb0 : (new ++ (b0.matchList ++ b5.matchList)).filter
      (fun m => offOf today m == (0 : ℤ)) = b0.matchList := by
    have t1 : new.filter (fun m => offOf today m == (0 : ℤ)) = [] :=
      List.filter_eq_nil_iff.mpr (fun m hm => by simp [hoff m hm])
    have t2 : b0.matchList.filter (fun m => offOf today m == (0 : ℤ)) = b0.matchList :=
      List.filter_eq_self.mpr (fun m hm => by simp [h0 m hm])
    have t3 : b5.matchList.filter (fun m => offOf today m == (0 : ℤ)) = [] :=
      List.filter_eq_nil_iff.mpr (fun m hm => by simp [h5 m hm])
    rw [List.filter_append, List.filter_append, t1, t2, t3]
    simp
  have hb5 : (new ++ (b0.matchList ++ b5.matchList)).filter
      (fun m => offOf today m == (5 : ℤ)) = b5.matchList := by
    have t1 : new.filter (fun m => offOf today m == (5 : ℤ)) = [] :=
      List.filter_eq_nil_iff.mpr (fun m hm => by simp [hoff m hm])
    have t2 : b0.matchList.filter (fun m => offOf today m == (5 : ℤ)) = [] :=
      List.filter_eq_nil_iff.mpr (fun m hm => by simp [h0 m hm])
    have t3 : b5.matchList.filter (fun m => offOf today m == (5 : ℤ)) = b5.matchList :=
      List.filter_eq_self.mpr (fun m hm => by simp [h5 m hm])
    rw [List.filter_append, List.filter_append, t1, t2, t3]
    simp
  refine ⟨?_, ?_, ?_, ?_⟩
  · rw [mergeOdds_some, bucketOf_windowFrom _ _ _ _ (by norm_num), hprune, hb3]
  · rw [mergeOdds_some, bucketOf_windowFrom _ _ _ _ (by norm_num), hprune, hb0]
  · rw [mergeOdds_some, bucketOf_windowFrom _ _ _ _ (by norm_num), hprune, hb5]
  · intro d
    rw [mergeOdds_some]
    unfold windowFrom
    simp only [Option.getD_some]
    rw [sortInt_mem, List.mem_dedup, mem_newDaysList]

/-! ## Claim C4 -/

/-- C4: among the admissible merge candidates (in-window new-batch matches
first, then in-window not-refreshed history matches, in processing order),
coinciding dedup keys yield exactly one match in the merged flat output:
the count of output matches with key `k` is 1 when some candidate has key
`k` (else 0), and an output match with key `k` is exactly the first
candidate carrying that key — later duplicates are silently dropped. -/
theorem C4_dedup_first_wins (new : List Match) (prev : Window) (today : String) (k : List Char) :
    ((mergeOdds new (some prev) today).matchList.countP (fun m => keyOf m == k) =
      if (mergeCands new (histMatches prev) today).any (fun m => keyOf m == k) then 1 else 0) ∧
    (∀ m : Match, (m ∈ (mergeOdds new (some prev) today).matchList ∧ keyOf m = k) ↔
      (mergeCands new (histMatches prev) today).find? (fun x => keyOf x == k) = some m) := by
  have hperm : List.Perm (mergeOdds new (some prev) today).matchList
      (pruneKey (mergeCands new (histMatches prev) today) []) := by
    rw [mergeOdds_some]
    unfold windowFrom
    refine (sortMatches_perm _).trans ?_
    apply flatten_group_perm today dayIdx dayIdx_nodup
    intro m hm
    have hmC : m ∈ mergeCands new (histMatches prev) today := pruneKey_subset _ _ _ hm
    have hw := mem_mergeCands_inWin new (histMatches prev) today m hmC
    rw [mem_dayIdx]
    exact (inWin_iff _).mp hw
  have hfilterA : (pruneKey (mergeCands new (histMatches prev) today) []).filter
      (fun m => keyOf m == k) =
      ((mergeCands new (histMatches prev) today).filter (fun m => keyOf m == k)).take 1 := by
    rw [pruneKey_filterKey]
    simp
  constructor
  · rw [hperm.countP_eq, List.countP_eq_length_filter, hfilterA]
    cases hf : (mergeCands new (histMatches prev) today).filter (fun m => keyOf m == k) with
    | nil =>
      have hany : (mergeCands new (histMatches prev) today).any (fun m => keyOf m == k) =
          false := by
        rw [List.any_eq_false]
        intro a ha
        exact List.filter_eq_nil_iff.mp hf a ha
      simp [hany]
    | cons a l =>
      have haf : a ∈ (mergeCands new (histMatches prev) today).filter
          (fun m => keyOf m == k) := by
        rw [hf]; exact List.mem_cons_self _ _
      have hany : (mergeCands new (histMatches prev) today).any (fun m => keyOf m == k) =
          true := by
        rw [List.any_eq_true]
        exact ⟨a, (List.mem_filter.mp haf).1, (List.mem_filter.mp haf).2⟩
      simp [hany]
  · intro m
    constructor
    · rintro ⟨hmem, hkey⟩
      have hmA : m ∈ pruneKey (mergeCands new (histMatches prev) today) [] :=
        hperm.mem_iff.mp hmem
      have hmf : m ∈ (pruneKey (mergeCands new (histMatches prev) today) []).filter
          (fun m => keyOf m == k) := List.mem_filter.mpr ⟨hmA, by simp [hkey]⟩
      rw [hfilterA] at hmf
      rw [find?_eq_head?_filter]
      cases hf : (mergeCands new (histMatches prev) today).filter (fun x => keyOf x == k) with
      | nil => rw [hf] at hmf; cases hmf
      | cons a l =>
        rw [hf] at hmf
        have hma : m = a := by simpa using hmf
        rw [hma]
        rfl
    · intro hfind
      rw [find?_eq_head?_filter] at hfind
      cases hf : (mergeCands new (histMatches prev) today).filter (fun x => keyOf x == k) with
      | nil => rw [hf] at hfind; cases hfind
      | cons a l =>
        rw [hf] at hfind
        have ham : a = m := by simpa using hfind
        have hin : m ∈ (pruneKey (mergeCands new (histMatches prev) today) []).filter
            (fun x => keyOf x == k) := by
          rw [hfilterA, hf, ← ham]
          simp [List.take]
        have hkey : keyOf m = k := by
          have := (List.mem_filter.mp hin).2
          simpa using this
        exact ⟨hperm.mem_iff.mpr (List.mem_filter.mp hin).1, hkey⟩

/-! ## Claim C8 -/

theorem mem_N_g2_false (new : List Match) (today : String) (n : Match)
    (hn : n ∈ pruneKey (new.filter (fun m => inWin (offOf today m))) []) :
    (inWin (offOf today n) && !((newDaysList new today).contains (offOf today n))) = false := by
  have hnf : n ∈ new.filter (fun m => inWin (offOf today m)) := pruneKey_subset _ _ _ hn
  have hmem := (List.mem_filter.mp hnf).1
  have hw : inWin (offOf today n) = true := (List.mem_filter.mp hnf).2
  have hd : offOf today n ∈ newDaysList new today := by
    rw [mem_newDaysList]
    have := (inWin_iff _).mp hw
    exact ⟨this.1, this.2, n, hmem, rfl⟩
  simp [hd]

/-- C8, amended: merge is idempotent whenever the first merge took the
normal path, i.e. the batch is nonempty or a previous window exists:
re-merging the same batch against the window just produced (same `today`)
returns an identical window (`meta.updated_at` is outside the model).  The
degenerate case — empty batch and no previous window — produces the
no-data output, and re-merging against it yields the normal-path empty
window instead (see the counterexample). -/
theorem C8_idempotent (new : List Match) (prev : Option Window) (today : String)
    (h : new ≠ [] ∨ prev ≠ none) :
    mergeOdds new (some (mergeOdds new prev today)) today = mergeOdds new prev today := by
  cases prev with
  | none =>
    have hne : new ≠ [] := by
      rcases h with h' | h'
      · exact h'
      · exact absurd rfl h'
    rw [mergeOdds_none new today hne, mergeOdds_some]
    apply windowFrom_congr
    intro j
    have hhist2 : (histMatches (windowFrom today (newDaysList new today)
        (pruneKey (new.filter (fun m => inWin (offOf today m))) []))).filter
        (fun m => inWin (offOf today m) &&
          !((newDaysList new today).contains (offOf today m))) = [] := by
      rw [histMatches_windowFrom]
      rw [List.filter_eq_nil_iff]
      intro m hm
      rcases List.mem_flatten.mp hm with ⟨l, hl, hml⟩
      rcases List.mem_map.mp hl with ⟨j', _, hj'⟩
      rw [← hj'] at hml
      have hmN := (List.mem_filter.mp hml).1
      intro hx
      rw [mem_N_g2_false new today m hmN] at hx
      cases hx
    unfold mergeCands
    rw [hhist2, List.append_nil]
  | some p =>
    rw [mergeOdds_some new p today, mergeOdds_some]
    apply windowFrom_congr
    intro j
    unfold mergeCands
    -- every admitted history match passes the history guard
    have hHg2 : ∀ m ∈ pruneKey ((histMatches p).filter (fun m => inWin (offOf today m) &&
          !((newDaysList new today).contains (offOf today m))))
        ((pruneKey (new.filter (fun m => inWin (offOf today m))) []).reverse.map keyOf ++ []),
        (inWin (offOf today m) && !((newDaysList new today).contains (offOf today m))) =
          true := by
      intro m hm
      exact (List.mem_filter.mp (pruneKey_subset _ _ _ hm)).2
    -- the carried-over part of the second run is the regrouped history part
    have hhist2 : (histMatches (windowFrom today (newDaysList new today)
        (pruneKey (new.filter (fun m => inWin (offOf today m)) ++
          (histMatches p).filter (fun m => inWin (offOf today m) &&
            !((newDaysList new today).contains (offOf today m)))) []))).filter
        (fun m => inWin (offOf today m) &&
          !((newDaysList new today).contains (offOf today m))) =
        (dayIdx.map (fun e => (pruneKey ((histMatches p).filter
            (fun m => inWin (offOf today m) &&
              !((newDaysList new today).contains (offOf today m))))
          ((pruneKey (new.filter (fun m => inWin (offOf today m))) []).reverse.map keyOf
            ++ [])).filter (fun m => offOf today m == e))).flatten := by
      rw [histMatches_windowFrom, List.filter_flatten, List.map_map]
      congr 1
      apply List.map_congr_left
      intro e _
      show ((pruneKey (new.filter (fun m => inWin (offOf today m)) ++
          (histMatches p).filter (fun m => inWin (offOf today m) &&
            !((newDaysList new today).contains (offOf today m)))) []).filter
          (fun m => offOf today m == e)).filter
          (fun m => inWin (offOf today m) &&
            !((newDaysList new today).contains (offOf today m))) = _
      rw [pruneKey_append, List.filter_append, List.filter_append]
      have hN : ((pruneKey (new.filter (fun m => inWin (offOf today m))) []).filter
          (fun m => offOf today m == e)).filter
          (fun m => inWin (offOf today m) &&
            !((newDaysList new today).contains (offOf today m))) = [] := by
        rw [List.filter_eq_nil_iff]
        intro m hm hx
        rw [mem_N_g2_false new today m (List.mem_filter.mp hm).1] at hx
        cases hx
      have hH : ((pruneKey ((histMatches p).filter (fun m => inWin (offOf today m) &&
            !((newDaysList new today).contains (offOf today m))))
          ((pruneKey (new.filter (fun m => inWin (offOf today m))) []).reverse.map keyOf
            ++ [])).filter (fun m => offOf today m == e)).filter
          (fun m => inWin (offOf today m) &&
            !((newDaysList new today).contains (offOf today m))) =
          (pruneKey ((histMatches p).filter (fun m => inWin (offOf today m) &&
            !((newDaysList new today).contains (offOf today m))))
          ((pruneKey (new.filter (fun m => inWin (offOf today m))) []).reverse.map keyOf
            ++ [])).filter (fun m => offOf today m == e) := by
        rw [List.filter_eq_self]
        intro m hm
        exact hHg2 m (List.mem_filter.mp hm).1
      rw [hN, hH, List.nil_append]
    -- the second deduplication is a no-op on the regrouped history
    have hHperm : List.Perm
        ((dayIdx.map (fun e => (pruneKey ((histMatches p).filter
            (fun m => inWin (offOf today m) &&
              !((newDaysList new today).contains (offOf today m))))
          ((pruneKey (new.filter (fun m => inWin (offOf today m))) []).reverse.map keyOf
            ++ [])).filter (fun m => offOf today m == e))).flatten)
        (pruneKey ((histMatches p).filter (fun m => inWin (offOf today m) &&
            !((newDaysList new today).contains (offOf today m))))
          ((pruneKey (new.filter (fun m => inWin (offOf today m))) []).reverse.map keyOf
            ++ [])) := by
      apply flatten_group_perm today dayIdx dayIdx_nodup
      intro m hm
      rw [mem_dayIdx]
      exact (inWin_iff _).mp (Bool.and_eq_true_iff.mp (hHg2 m hm)).1
    have hnoop : pruneKey
        ((dayIdx.map (fun e => (pruneKey ((histMatches p).filter
            (fun m => inWin (offOf today m) &&
              !((newDaysList new today).contains (offOf today m))))
          ((pruneKey (new.filter (fun m => inWin (offOf today m))) []).reverse.map keyOf
            ++ [])).filter (fun m => offOf today m == e))).flatten)
        ((pruneKey (new.filter (fun m => inWin (offOf today m))) []).reverse.map keyOf
          ++ []) =
        (dayIdx.map (fun e => (pruneKey ((histMatches p).filter
            (fun m => inWin (offOf today m) &&
              !((newDaysList new today).contains (offOf today m))))
          ((pruneKey (new.filter (fun m => inWin (offOf today m))) []).reverse.map keyOf
            ++ [])).filter (fun m => offOf today m == e))).flatten := by
      apply pruneKey_noop
      · intro m hm
        rcases List.mem_flatten.mp hm with ⟨l, hl, hml⟩
        rcases List.mem_map.mp hl with ⟨j', _, hj'⟩
        rw [← hj'] at hml
        exact pruneKey_key_not_seen _ _ _ (List.mem_filter.mp hml).1
      · exact (hHperm.map keyOf).nodup_iff.mpr (pruneKey_nodupKeys _ _)
    -- assemble the bucket equality
    rw [hhist2, pruneKey_append, pruneKey_append, hnoop]
    rw [List.filter_append, List.filter_append]
    congr 1
    rw [filter_group_flatten today j dayIdx _ dayIdx_nodup]
    by_cases hj : j ∈ dayIdx
    · rw [if_pos hj]
    · rw [if_neg hj]
      symm
      rw [List.filter_eq_nil_iff]
      intro m hm hx
      have hoffm : offOf today m ∈ dayIdx := by
        rw [mem_dayIdx]
        exact (inWin_iff _).mp (Bool.and_eq_true_iff.mp (hHg2 m hm)).1
      have : offOf today m = j := by simpa using hx
      exact hj (this ▸ hoffm)

/-! ## Claim C6 -/

/-- The concrete record of claim C6: home name only under `home_team`,
away name only under `home`/`away` — no single probe pair is complete. -/
def rC6 : RawRecord := { home_team := some "Arsenal", away := some "Chelsea" }

/-- C6, counterexample: in `rC6` no probe pair (`home_team`/`away_team`,
`home`/`away`, `homeTeam`/`awayTeam`) yields two non-empty team names, yet
`parse_match` produces a Match — the code resolves the two sides
independently through `or`-chains rather than per pair, so the claim's
"no probe yields two non-empty names implies discard" is false. -/
theorem C6_counterexample :
    (¬(rC6.home_team.getD "" ≠ "" ∧ rC6.away_team.getD "" ≠ "")) ∧
    (¬(rC6.home.getD "" ≠ "" ∧ rC6.away.getD "" ≠ "")) ∧
    (¬(rC6.homeTeam.getD "" ≠ "" ∧ rC6.awayTeam.getD "" ≠ "")) ∧
    parse_match rC6 ≠ none := by
  exact ⟨by decide, by decide, by decide, by decide⟩

theorem firstNonEmpty_eq (a b c : Option String) :
    firstNonEmpty [a, b, c] =
      if pyOr (a.getD "") (pyOr (b.getD "") (c.getD "")) = "" then none
      else some (pyOr (a.getD "") (pyOr (b.getD "") (c.getD ""))) := by
  rcases a with _ | sa <;> rcases b with _ | sb <;> rcases c with _ | sc <;>
    simp only [firstNonEmpty, pyOr, Option.getD_some, Option.getD_none] <;>
    split_ifs <;> simp_all [firstNonEmpty]

/-- C6, amended: the normalizer resolves each team name independently —
`home` is the first non-empty of `home_team`, `home`, `homeTeam` and
`away` the first non-empty of `away_team`, `away`, `awayTeam` (pairs are
not probed jointly, and nested records are outside this per-field string
model) — and `parse_match` discards iff either resolved side is empty;
when a Match is produced its team names are those resolved values. -/
theorem C6_team_resolution (r : RawRecord) :
    (parse_match r = none ↔
      (firstNonEmpty [r.home_team, r.home, r.homeTeam] = none ∨
       firstNonEmpty [r.away_team, r.away, r.awayTeam] = none)) ∧
    (∀ m : Match, parse_match r = some m →
      some m.home_team = firstNonEmpty [r.home_team, r.home, r.homeTeam] ∧
      some m.away_team = firstNonEmpty [r.away_team, r.away, r.awayTeam]) := by
  rw [firstNonEmpty_eq, firstNonEmpty_eq]
  by_cases hh : pyOr (r.home_team.getD "") (pyOr (r.home.getD "") (r.homeTeam.getD "")) = ""
  · constructor
    · simp [parse_match, hh]
    · intro m hm
      rw [parse_match] at hm
      simp [hh] at hm
  · by_cases ha : pyOr (r.away_team.getD "") (pyOr (r.away.getD "") (r.awayTeam.getD "")) = ""
    · constructor
      · simp [parse_match, hh, ha]
      · intro m hm
        rw [parse_match] at hm
        simp [hh, ha] at hm
    · constructor
      · simp [parse_match, hh, ha]
      · intro m hm
        rw [parse_match] at hm
        simp only [hh, ha, or_self, if_false, Option.some.injEq] at hm
        rw [← hm]
        simp [hh, ha]

/-! ## Claim C1 -/

/-- The fetch-side record of claim C1's counterexample: the sharp-book
candidate exposes a draw price but no home price, Bet365 is complete. -/
def rC1f : FRow :=
  { HomeTeam := some "Arsenal", AwayTeam := some "Chelsea", Date := some "16/01/25",
    PSD := some (mkRat 17 5), B365H := some (mkRat 2 1), B365D := some (mkRat 3 1),
    B365A := some (mkRat 4 1) }

/-- The merge-side record of claim C1's counterexample: both the `odds`
dict and a `markets` dict carry h2h data. -/
def rC1m : RawRecord :=
  { home_team := some "A", away_team := some "B",
    odds := some { h2h := some { home := some (mkRat 2 1) } },
    markets := some (.mdict { h2h := some { home := some (mkRat 3 1) } }) }

/-- C1, counterexample, two violations of "the accepted h2h odds equal
those of the highest-priority candidate that yields at least one
non-missing value; once a candidate has yielded a value no lower-priority
candidate is consulted":
(a) in the fetch normalizer, the sharp-book candidate of `rC1f` yields the
non-missing draw price 3.4, yet the accepted odds are Bet365's (draw 3):
a candidate is skipped whenever its *home* price is missing;
(b) in the merge-side normalizer on `rC1m`, the earlier-consulted `odds`
dict yields h2h home 2, yet the later-consulted `markets` dict wins
(home 3): the markets dict overrides already-yielded h2h data. -/
theorem C1_counterexample :
    (rC1f.PSH = none ∧ rC1f.PSD = some (mkRat 17 5) ∧
      h2hMarket rC1f = some ⟨mkRat 2 1, mkRat 3 1, mkRat 4 1⟩ ∧
      (mkRat 3 1 : ℚ) ≠ mkRat 17 5) ∧
    ((parse_match rC1m).map (fun m => m.markets.h2h) =
        some (some { home := some (mkRat 3 1) }) ∧
      rC1m.odds = some { h2h := some { home := some (mkRat 2 1) } } ∧
      (mkRat 3 1 : ℚ) ≠ mkRat 2 1) := by
  exact ⟨⟨by decide, by decide, by decide, by decide⟩, by decide, by decide, by decide⟩

/-- C1, amended: restricted to the fetch normalizer the priority property
holds with "yields" meaning "home price present": for every row, the
accepted h2h odds are computed from the highest-priority candidate
(`PSH/PSD/PSA`, then `PH/PD/PA`, then Bet365, then market average) whose
home price is present, and once such a candidate is found no
lower-priority candidate is consulted — the selection equals the
first-success-wins combinator over the ordered candidate list. -/
theorem C1_h2h_priority (r : FRow) :
    h2hMarket r = acceptH2h (firstHomeCand (h2hCands r)) := by
  rw [h2hMarket_eq_accept]
  cases r with
  | mk HT AT D T Dv psh psd psa ph pd pa bh bd ba ah ad aa po pu bo bu ao au =>
    cases psh <;> cases ph <;> cases bh <;> cases ah <;> rfl

/-! ## Claim C5 -/

/-- The record of claim C5's counterexample: home and away Pinnacle prices
present, draw price absent, plus a complete Bet365 over/under pair. -/
def rC5 : FRow :=
  { HomeTeam := some "Arsenal", AwayTeam := some "Chelsea", Date := some "16/01/25",
    PSH := some (mkRat 9 5), PSA := some (mkRat 9 2),
    B365over25 := some (mkRat 19 10), B365under25 := some (mkRat 19 10) }

/-- C5, counterexample: in `rC5` both the home and the away price are
present, yet no h2h triple is accepted (the draw price is also required),
and the row is dropped from the output entirely even though it carries a
valid totals market. -/
theorem C5_counterexample :
    rC5.PSH = some (mkRat 9 5) ∧ rC5.PSA = some (mkRat 9 2) ∧
    h2hMarket rC5 = none ∧
    totalsMarket rC5 = some ⟨mkRat 19 10, mkRat 19 10, mkRat 5 2⟩ ∧
    transform_to_watchyscore_format [rC5] = [] := by
  exact ⟨by decide, by decide, by decide, by decide, by decide⟩

/-- C5, amended: the fetch normalizer accepts an h2h triple only when the
home, draw AND away prices of the selected candidate are all present and
non-zero (Python truthiness), and every accepted price is rounded to 2
decimal places; conversely, whenever the selected candidate has all three
present and non-zero the rounded triple is accepted. -/
theorem C5_h2h_all_three_required (r : FRow) :
    (∀ t : FH2H, h2hMarket r = some t →
      ∃ h dv av, pickH2h r = some (h, some dv, some av) ∧
        h ≠ 0 ∧ dv ≠ 0 ∧ av ≠ 0 ∧ t = ⟨round2 h, round2 dv, round2 av⟩) ∧
    (∀ h dv av, pickH2h r = some (h, some dv, some av) →
      h ≠ 0 → dv ≠ 0 → av ≠ 0 →
      h2hMarket r = some ⟨round2 h, round2 dv, round2 av⟩) := by
  constructor
  · intro t ht
    rw [h2hMarket_eq_accept] at ht
    cases hp : pickH2h r with
    | none => rw [hp] at ht; cases ht
    | some x =>
      obtain ⟨h, dOdd, aOdd⟩ := x
      rw [hp] at ht
      cases dOdd with
      | none => simp [acceptH2h] at ht
      | some dv =>
        cases aOdd with
        | none => simp [acceptH2h] at ht
        | some av =>
          simp only [acceptH2h] at ht
          by_cases hc : h ≠ 0 ∧ dv ≠ 0 ∧ av ≠ 0
          · rw [if_pos hc] at ht
            exact ⟨h, dv, av, rfl, hc.1, hc.2.1, hc.2.2,
              (Option.some.inj ht).symm⟩
          · rw [if_neg hc] at ht
            cases ht
  · intro h dv av hp hh hd ha
    rw [h2hMarket_eq_accept, hp]
    simp only [acceptH2h]
    rw [if_pos ⟨hh, hd, ha⟩]

/-- The full-Pinnacle row used to witness claim C5's amended theorem. -/
def rC5w : FRow :=
  { HomeTeam := some "Arsenal", AwayTeam := some "Chelsea", Date := some "16/01/25",
    PSH := some (mkRat 9 5), PSD := some (mkRat 17 5), PSA := some (mkRat 9 2) }

theorem C5_h2h_all_three_required_witness :
    (h2hMarket rC5w = some ⟨mkRat 9 5, mkRat 17 5, mkRat 9 2⟩) ∧
    (∃ h dv av, pickH2h rC5w = some (h, some dv, some av) ∧
      h ≠ 0 ∧ dv ≠ 0 ∧ av ≠ 0 ∧
      (⟨mkRat 9 5, mkRat 17 5, mkRat 9 2⟩ : FH2H) = ⟨round2 h, round2 dv, round2 av⟩) :=
  ⟨by decide, (C5_h2h_all_three_required rC5w).1 ⟨mkRat 9 5, mkRat 17 5, mkRat 9 2⟩ (by decide)⟩

/-! ## Claim C9 -/

/-- The raw record of claim C9. -/
def rowC9 : FRow :=
  { HomeTeam := some "Arsenal", AwayTeam := some "Chelsea", Date := some "16/01/25",
    Div := some "E0", PSH := some (mkRat 9 5), PSD := some (mkRat 17 5),
    PSA := some (mkRat 9 2) }

/-- The Match record claim C9 predicts (plus the `league_code` field the
fetch pipeline also emits and empty totals, elided in the claim's
display). -/
def mC9 : FMatch :=
  { home_team := "Arsenal", away_team := "Chelsea",
    commence_time := "2025-01-16T00:00:00Z", league := "ENG Premier League",
    league_code := "E0", h2h := some ⟨mkRat 9 5, mkRat 17 5, mkRat 9 2⟩,
    totals := none }

/-- C9: normalizing the concrete record yields exactly the claimed Match
(home/away teams, ISO commence time 2025-01-16T00:00:00Z under the
DD/MM/YY convention for the two-digit year, league `ENG Premier League`
from code `E0`, h2h prices 1.8/3.4/4.5); a four-digit year parses under
DD/MM/YYYY to the same date; and the rational prices equal the claim's
decimals. -/
theorem C9_concrete_example :
    transform_to_watchyscore_format [rowC9] = [mC9] ∧
    parse_date "16/01/25" none = some "2025-01-16T00:00:00Z" ∧
    parse_date "16/01/2025" none = some "2025-01-16T00:00:00Z" ∧
    (mkRat 9 5 = (1.8 : ℚ) ∧ mkRat 17 5 = (3.4 : ℚ) ∧ mkRat 9 2 = (4.5 : ℚ)) := by
  refine ⟨by decide, by decide, by decide, ?_, ?_, ?_⟩ <;>
    norm_num [Rat.mkRat_eq_div]

/-! ## Claim C10 -/

theorem strpDMY_valid (cs : List Char) (two wt : Bool) (t : DT)
    (h : strpDMY cs two wt = some t) : validDT t := by
  unfold strpDMY at h
  cases hr : strpDMYraw cs two wt with
  | none => rw [hr] at h; cases h
  | some u =>
    rw [hr] at h
    simp only [Option.some_bind] at h
    by_cases hv : validDT u
    · rw [if_pos hv] at h
      exact (Option.some.inj h) ▸ hv
    · rw [if_neg hv] at h
      cases h

theorem parse_date_sound (ds : String) (ts : Option String) (ct : String)
    (h : parse_date ds ts = some ct) : ∃ t : DT, validDT t ∧ ct = renderISO t := by
  rcases ts with _ | s
  all_goals simp only [parse_date] at h
  · cases hd : strpDMY ds.data (ds.length ≤ 8) false with
    | none => rw [hd] at h; cases h
    | some t =>
      rw [hd] at h
      exact ⟨t, strpDMY_valid _ _ _ _ hd, (Option.some.inj h).symm⟩
  · by_cases hs : s = ""
    · rw [if_pos hs] at h
      cases hd : strpDMY ds.data (ds.length ≤ 8) false with
      | none => rw [hd] at h; cases h
      | some t =>
        rw [hd] at h
        exact ⟨t, strpDMY_valid _ _ _ _ hd, (Option.some.inj h).symm⟩
    · rw [if_neg hs] at h
      cases hd : strpDMY (ds.data ++ ' ' :: s.data) (ds.length ≤ 8) true with
      | none => rw [hd] at h; cases h
      | some t =>
        rw [hd] at h
        exact ⟨t, strpDMY_valid _ _ _ _ hd, (Option.some.inj h).symm⟩

theorem renderISO_ne_empty (t : DT) : renderISO t ≠ "" := by
  unfold renderISO pad4
  intro h
  have h' := congrArg String.data h
  simp at h'

/-- The row of claim C10's concrete part: a valid date and a valid Bet365
totals pair, but the draw price is zero (falsy), so the h2h body stays
empty. -/
def rowC10 : FRow :=
  { HomeTeam := some "Leeds", AwayTeam := some "Derby", Date := some "17/01/25",
    PSH := some (mkRat 2 1), PSD := some 0, PSA := some (mkRat 7 2),
    B365over25 := some (mkRat 21 10), B365under25 := some (mkRat 17 10) }

/-- C10: every match emitted by the fetch normalizer has a non-empty h2h
body and a non-empty commence time that is the ISO rendering of a valid
parsed date-time; and the concrete row with a zero draw price is silently
excluded even though it carries a valid totals market. -/
theorem C10_output_invariant :
    (∀ (rows : List FRow) (m : FMatch), m ∈ transform_to_watchyscore_format rows →
      m.h2h.isSome ∧ m.commence_time ≠ "" ∧
      ∃ t : DT, validDT t ∧ m.commence_time = renderISO t) ∧
    (transform_to_watchyscore_format [rowC10] = [] ∧
      totalsMarket rowC10 = some ⟨mkRat 21 10, mkRat 17 10, mkRat 5 2⟩ ∧
      rowC10.PSD = some 0) := by
  refine ⟨?_, by decide, by decide, by decide⟩
  intro rows m hm
  rcases List.mem_filterMap.mp hm with ⟨r, _, hr⟩
  unfold processRow at hr
  by_cases hteams : (r.HomeTeam.isNone || r.AwayTeam.isNone) = true
  · rw [if_pos hteams] at hr; cases hr
  · rw [if_neg hteams] at hr
    cases hpd : parse_date (r.Date.getD "") r.Time with
    | none => rw [hpd] at hr; cases hr
    | some ct =>
      rw [hpd] at hr
      dsimp only at hr
      by_cases hh2h : (h2hMarket r).isSome = true
      · rw [if_pos hh2h] at hr
        have hm' := Option.some.inj hr
        rcases parse_date_sound _ _ _ hpd with ⟨t, hvt, hct⟩
        rw [← hm']
        refine ⟨hh2h, ?_, t, hvt, hct⟩
        rw [hct]
        exact renderISO_ne_empty t
      · rw [if_neg hh2h] at hr
        cases hr

/-- The row and match used to witness claim C10's universal invariant. -/
def rowC10w : FRow :=
  { HomeTeam := some "Lyon", AwayTeam := some "Nice", Date := some "18/01/25",
    Time := some "17:05", Div := some "F1", PSH := some (mkRat 12 5),
    PSD := some (mkRat 16 5), PSA := some (mkRat 14 5) }

/-- The match `rowC10w` normalizes to. -/
def mC10w : FMatch :=
  { home_team := "Lyon", away_team := "Nice",
    commence_time := "2025-01-18T17:05:00Z", league := "FRA Ligue 1",
    league_code := "F1", h2h := some ⟨mkRat 12 5, mkRat 16 5, mkRat 14 5⟩,
    totals := none }

theorem C10_output_invariant_witness :
    mC10w ∈ transform_to_watchyscore_format [rowC10w] ∧
    (mC10w.h2h.isSome ∧ mC10w.commence_time ≠ "" ∧
      ∃ t : DT, validDT t ∧ mC10w.commence_time = renderISO t) :=
  ⟨by decide, C10_output_invariant.1 [rowC10w] mC10w (by decide)⟩

/-! ## Remaining counterexamples and witnesses -/

/-- C8, counterexample: with an empty batch and no previous window the
first merge yields the degenerate no-data output (empty `by_day`, error
marker); merging the same empty batch against that window takes the normal
path and yields a window with 7 (empty) buckets and no error marker — the
contents differ, so idempotence fails as universally stated. -/
theorem C8_counterexample :
    (mergeOdds [] (some (mergeOdds [] none "2025-02-01")) "2025-02-01").by_day.length = 7 ∧
    (mergeOdds [] none "2025-02-01").by_day.length = 0 ∧
    mergeOdds [] (some (mergeOdds [] none "2025-02-01")) "2025-02-01" ≠
      mergeOdds [] none "2025-02-01" := by
  exact ⟨by decide, by decide, by decide⟩

/-- The nonempty batch used to witness claim C8's amended theorem. -/
def mC8 : Match :=
  { home_team := "Lens", away_team := "Lille",
    commence_time := "2025-01-17T19:00:00Z", league := "FRA Ligue 1", markets := {} }

theorem C8_idempotent_witness :
    (([mC8] : List Match) ≠ [] ∨ (none : Option Window) ≠ none) ∧
    mergeOdds [mC8] (some (mergeOdds [mC8] none "2025-01-16")) "2025-01-16" =
      mergeOdds [mC8] none "2025-01-16" :=
  ⟨Or.inl (by decide),
   C8_idempotent [mC8] none "2025-01-16" (Or.inl (by decide))⟩

/-- Concrete record and output for claim C6's witness. -/
def rC6w : RawRecord := { home_team := some "Arsenal", away_team := some "Chelsea" }

def mC6w : Match :=
  { home_team := "Arsenal", away_team := "Chelsea", commence_time := "",
    league := "Unknown", markets := {} }

theorem C6_team_resolution_witness :
    parse_match rC6w = some mC6w ∧
    (some mC6w.home_team = firstNonEmpty [rC6w.home_team, rC6w.home, rC6w.homeTeam] ∧
     some mC6w.away_team = firstNonEmpty [rC6w.away_team, rC6w.away, rC6w.awayTeam]) :=
  ⟨by decide, (C6_team_resolution rC6w).2 mC6w (by decide)⟩

/-- Concrete instance for claim C3's witness: the new batch refreshes only
offset 3, the previous window holds buckets 0, 3 and 5. -/
def nC3 : Match :=
  { home_team := "Leeds", away_team := "Derby",
    commence_time := "2025-01-19T15:00:00Z", league := "ENG Championship", markets := {} }

def w0C3 : Match :=
  { home_team := "Real Madrid", away_team := "Getafe",
    commence_time := "2025-01-16T20:00:00Z", league := "ESP La Liga", markets := {} }

def w3C3 : Match :=
  { home_team := "Betis", away_team := "Sevilla",
    commence_time := "2025-01-19T18:00:00Z", league := "ESP La Liga", markets := {} }

def w5C3 : Match :=
  { home_team := "Porto", away_team := "Braga",
    commence_time := "2025-01-21T21:00:00Z", league := "PRT Primeira Liga", markets := {} }

def b0C3 : DayBucket :=
  { date := "2025-01-16", day_name := "Thursday", match_count := 1, matchList := [w0C3] }

def b3C3 : DayBucket :=
  { date := "2025-01-19", day_name := "Sunday", match_count := 1, matchList := [w3C3] }

def b5C3 : DayBucket :=
  { date := "2025-01-21", day_name := "Tuesday", match_count := 1, matchList := [w5C3] }

def prevC3 : Window :=
  { meta := { source := "oddsharvester", total_matches := 3, coverage_days := some 7,
              days_with_data := some 3, last_refreshed_days := some [], error := none },
    by_day := [(0, b0C3), (3, b3C3), (5, b5C3)],
    matchList := [w0C3, w3C3, w5C3] }

theorem C3_refresh_replaces_bucket_witness :
    (prevC3.by_day = [(0, b0C3), (3, b3C3), (5, b5C3)] ∧
      ([nC3] : List Match) ≠ [] ∧
      (∀ m ∈ ([nC3] : List Match), offOf "2025-01-16" m = 3) ∧
      (∀ m ∈ b0C3.matchList, offOf "2025-01-16" m = 0) ∧
      (∀ m ∈ b3C3.matchList, offOf "2025-01-16" m = 3) ∧
      (∀ m ∈ b5C3.matchList, offOf "2025-01-16" m = 5) ∧
      ((([nC3] ++ b0C3.matchList ++ b3C3.matchList ++ b5C3.matchList).map keyOf).Nodup)) ∧
    (bucketOf (mergeOdds [nC3] (some prevC3) "2025-01-16") 3 = [nC3] ∧
     bucketOf (mergeOdds [nC3] (some prevC3) "2025-01-16") 0 = b0C3.matchList ∧
     bucketOf (mergeOdds [nC3] (some prevC3) "2025-01-16") 5 = b5C3.matchList ∧
     (∀ d : ℤ, d ∈ ((mergeOdds [nC3] (some prevC3) "2025-01-16").meta.last_refreshed_days.getD
          []) ↔ (0 ≤ d ∧ d < 7 ∧ ∃ m ∈ ([nC3] : List Match), offOf "2025-01-16" m = d))) :=
  ⟨⟨by decide, by decide, by decide, by decide, by decide, by decide, by decide⟩,
   C3_refresh_replaces_bucket [nC3] prevC3 b0C3 b3C3 b5C3 "2025-01-16"
     (by decide) (by decide) (by decide) (by decide) (by decide) (by decide) (by decide)⟩

end OddsHarvester